import Mathlib

/-!
The Secret Service front end of lxqt_wallet (`src/frontend/secret_service.c`)

A shallow embedding of the key/value wallet that `secret_service.c` builds on top of
libsecret, and the properties of its store / clear / enumerate operations.

The backend is modelled as two attribute-indexed item collections, one per schema:

* `keyValues`: attribute `"string"` (a C string) to the stored secret;
* `keyID`: attribute `"integer"` (a C `int`) to the stored secret.

`secret_password_lookup_sync` reads an item, `secret_password_store_sync` creates or replaces
the item with the given attribute, `secret_password_clear_sync` removes it.  A mutating call
may be refused by the backend; a refused call changes nothing.  The outcomes of the upcoming
mutating calls are listed in `Wallet.faults` (one entry per call, in call order; once the
list is exhausted every call is accepted).

C `int` values are integers in `[-2^31, 2^31)`; `int` arithmetic is reduced with `wrap32`.

The heap is an allocator `malloc : Nat → Bool` handed to `lxqt_secret_get_all_keys`: it tells
whether a request of the given number of bytes is granted (a pointer) or refused (NULL).
-/

namespace LxqtWallet

/-! ## C integers, `atoi` and `snprintf("%d")` -/

/-- Largest C `int`. -/
def INT_MAX : Int := 2147483647

/-- Two-complement reduction of an integer to the 32-bit `int` range. -/
def wrap32 (x : Int) : Int := (x + 2147483648) % 4294967296 - 2147483648

/-- Largest C `long` (LP64). -/
def LONG_MAX : Int := 9223372036854775807

/-- Smallest C `long` (LP64). -/
def LONG_MIN : Int := -9223372036854775808

/-- C `isspace` in the "C" locale. -/
def isspace (c : Char) : Bool :=
  c.toNat = 32 || (9 ≤ c.toNat && c.toNat ≤ 13)

/-- C `isdigit`. -/
def isdigit (c : Char) : Bool :=
  48 ≤ c.toNat && c.toNat ≤ 57

/-- Value of the longest prefix of decimal digits, continuing from `acc`. -/
def digitsValue : Nat → List Char → Nat
  | acc, [] => acc
  | acc, c :: cs => if isdigit c then digitsValue (acc * 10 + (c.toNat - 48)) cs else acc

/-- Value of an optional sign followed by decimal digits. -/
def signedValue : List Char → Int
  | [] => 0
  | c :: ds =>
    if c = '-' then -((digitsValue 0 ds : Nat) : Int)
    else if c = '+' then ((digitsValue 0 ds : Nat) : Int)
    else ((digitsValue 0 (c :: ds) : Nat) : Int)

/-- C `strtol(s, NULL, 10)`: leading white space, an optional sign, decimal digits; the value
saturates at `LONG_MIN` / `LONG_MAX`. -/
def strtol (s : List Char) : Int :=
  max LONG_MIN (min LONG_MAX (signedValue (s.dropWhile isspace)))

/-- C `atoi(s)`, that is `(int) strtol(s, NULL, 10)`. -/
def atoi (s : String) : Int := wrap32 (strtol s.toList)

/-- Size of the `wallet_size` buffer. -/
def BUFFER_SIZE : Nat := 32

/-- The text `snprintf(wallet_size, BUFFER_SIZE, "%d", j)` leaves in `wallet_size`. -/
def snprintf_d (j : Int) : String :=
  let text : List Char :=
    if j < 0 then '-' :: Nat.toDigits 10 j.natAbs else Nat.toDigits 10 j.toNat
  String.mk (text.take (BUFFER_SIZE - 1))

/-! ## The backend -/

/-- Item with attribute `a`, if any (`secret_password_lookup_sync`). -/
def lookup {α : Type} [DecidableEq α] (a : α) : List (α × String) → Option String
  | [] => none
  | (b, v) :: t => if b = a then some v else lookup a t

/-- Remove the items with attribute `a` (`secret_password_clear_sync`). -/
def clear {α : Type} [DecidableEq α] (a : α) (l : List (α × String)) : List (α × String) :=
  l.filter (fun p => decide (p.1 ≠ a))

/-- Create or replace the item with attribute `a` (`secret_password_store_sync`). -/
def store {α : Type} [DecidableEq α] (a : α) (v : String) (l : List (α × String)) :
    List (α × String) :=
  (a, v) :: clear a l

/-- The state of the Secret Service behind one wallet. -/
structure Wallet where
  /-- schema `keyValues`: attribute "string" to secret -/
  keyValues : List (String × String)
  /-- schema `keyID`: attribute "integer" to secret -/
  keyID : List (Int × String)
  /-- outcomes of the upcoming mutating backend calls -/
  faults : List Bool
  deriving DecidableEq, Repr

/-- Outcome of the next mutating backend call. -/
def accepts (w : Wallet) : Bool := w.faults.headD true

/-- Source function `_get_string_value_0(s, key)` on the schema `keyValues`. -/
def _get_string_value_0 (key : String) (w : Wallet) : Option String :=
  lookup key w.keyValues

/-- Source function `_get_string_value(s, key)`: `-1` when the item is absent, its `atoi`
otherwise. -/
def _get_string_value (key : String) (w : Wallet) : Int :=
  match _get_string_value_0 key w with
  | none => -1
  | some c => atoi c

/-- Source function `_get_integer_value_0(s, key)` on the schema `keyID`. -/
def _get_integer_value_0 (key : Int) (w : Wallet) : Option String :=
  lookup key w.keyID

/-- Source function `_get_integer_value(s, key)`: `-1` when the item is absent, its `atoi`
otherwise. -/
def _get_integer_value (key : Int) (w : Wallet) : Int :=
  match _get_integer_value_0 key w with
  | none => -1
  | some c => atoi c

/-- Source function `_set_integer_value(s, name, key, value)` on `keyID`: the secret `key` is
stored under the attribute `value`. -/
def _set_integer_value (key : String) (value : Int) (w : Wallet) : Bool × Wallet :=
  if accepts w then
    (true, { w with keyID := store value key w.keyID, faults := w.faults.tail })
  else (false, { w with faults := w.faults.tail })

/-- Source function `_set_string_value(s, name, key, value)` on `keyValues`: the secret `key`
is stored under the attribute `value`. -/
def _set_string_value (key value : String) (w : Wallet) : Bool × Wallet :=
  if accepts w then
    (true, { w with keyValues := store value key w.keyValues, faults := w.faults.tail })
  else (false, { w with faults := w.faults.tail })

/-- Source function `_number_of_entries_in_the_wallet(s)`. -/
def _number_of_entries_in_the_wallet (w : Wallet) : Int :=
  let e := _get_string_value "lxqt_wallet_size" w
  if e = -1 then 0 else e

/-- Source function `_clear_integer_value(s, k)` on `keyID`. -/
def _clear_integer_value (k : Int) (w : Wallet) : Bool × Wallet :=
  if accepts w then
    (true, { w with keyID := clear k w.keyID, faults := w.faults.tail })
  else (false, { w with faults := w.faults.tail })

/-- Source function `_clear_string_value(s, k)` on `keyValues`. -/
def _clear_string_value (k : String) (w : Wallet) : Bool × Wallet :=
  if accepts w then
    (true, { w with keyValues := clear k w.keyValues, faults := w.faults.tail })
  else (false, { w with faults := w.faults.tail })

/-! ## The operations of `secret_service.c` -/

/-- Source function `lxqt_secret_service_wallet_is_open`: the gate, a write of the fixed entry. -/
def lxqt_secret_service_wallet_is_open (w : Wallet) : Bool × Wallet :=
  _set_string_value "lxqt_wallet_open" "lxqt_wallet_open" w

/-- Source function `lxqt_secret_service_get_value`. -/
def lxqt_secret_service_get_value (key : String) (w : Wallet) : Option String :=
  _get_string_value_0 key w

/-- The branch `k == -1` of the loop of `lxqt_secret_service_password_store_sync` (lines
220-235): claim slot `i`, write `key -> value`, clear the slot again when that write fails. -/
def store_claim (key value : String) (i : Int) (w : Wallet) : Bool × Wallet :=
  let r := _set_integer_value key i w
  if r.1 then
    let r2 := _set_string_value value key r.2
    if r2.1 then (true, r2.2)
    else (false, (_clear_integer_value i r2.2).2)
  else (false, r.2)

/-- The `while (i < j)` loop of `lxqt_secret_service_password_store_sync`; the first argument
is the number `j - i` of iterations the loop condition still allows (`i` starts at 0 and
grows by one per iteration, so `i + 1` cannot overflow). -/
def store_scan (key value : String) : Nat → Int → Wallet → Bool × Wallet
  | 0, _, w => (false, w)
  | n + 1, i, w =>
    let k := _get_integer_value i w
    if k = -1 then store_claim key value i w
    else store_scan key value n (i + 1) w

/-- Source function `lxqt_secret_service_password_store_sync(key, value, keyValues, keyID)`. -/
def lxqt_secret_service_password_store_sync (key value : String) (w : Wallet) :
    Bool × Wallet :=
  let g := lxqt_secret_service_wallet_is_open w
  if !g.1 then (false, g.2)
  else
    let j := _get_string_value "lxqt_wallet_size" g.2
    if j = -1 then
      let w1 := (_set_string_value "1" "lxqt_wallet_size" g.2).2
      let w2 := (_set_integer_value key 0 w1).2
      (false, w2)
    else
      let j := wrap32 (j + 1)
      let wallet_size := snprintf_d j
      let w1 := (_set_string_value wallet_size "lxqt_wallet_size" g.2).2
      store_scan key value j.toNat 0 w1

/-- The branch `e == 0` of the loop of `lxqt_secret_service_clear_sync` (lines 279-288):
clear slot `k`, write the decremented count, clear the value entry of `key`. -/
def clear_match (key : String) (k : Int) (w : Wallet) : Wallet :=
  let w1 := (_clear_integer_value k w).2
  let e := _get_string_value "lxqt_wallet_size" w1
  let wallet_size := snprintf_d (wrap32 (e - 1))
  let w2 := (_set_string_value wallet_size "lxqt_wallet_size" w1).2
  (_clear_string_value key w2).2

/-- The `while (i <= j)` loop of `lxqt_secret_service_clear_sync`, run for at most the given
number of iterations; `none` when the loop has not exited by then. -/
def clear_scan (key : String) (j : Int) : Nat → Int → Int → Wallet → Option (Bool × Wallet)
  | 0, _, _, _ => none
  | fuel + 1, i, k, w =>
    if i ≤ j then
      match _get_integer_value_0 k w with
      | some c =>
        if c = key then some (true, clear_match key k w)
        else clear_scan key j fuel (wrap32 (i + 1)) (wrap32 (k + 1)) w
      | none => clear_scan key j fuel i (wrap32 (k + 1)) w
    else some (false, w)

/-- Source function `lxqt_secret_service_clear_sync(key, keyValues, keyID)`, its loop run for
at most `fuel` iterations. -/
def lxqt_secret_service_clear_sync (fuel : Nat) (key : String) (w : Wallet) :
    Option (Bool × Wallet) :=
  let j := _number_of_entries_in_the_wallet w
  let g := lxqt_secret_service_wallet_is_open w
  if !g.1 then some (false, g.2)
  else clear_scan key j fuel 0 0 g.2

/-- State of the loop of `lxqt_secret_get_all_keys`: the entries written to the array `c` so
far and `*count`. -/
structure Keys where
  /-- the entries `c[0] .. c[i - 1]` -/
  entries : List String
  /-- the current `*count` -/
  count : Int
  deriving DecidableEq, Repr

/-- What `lxqt_secret_get_all_keys` hands back: the pointer `c` and the final `*count`. -/
structure AllKeys where
  /-- the returned pointer `c`: `none` for NULL, otherwise the entries written to the array -/
  array : Option (List String)
  /-- the final `*count` -/
  count : Int
  deriving DecidableEq, Repr

/-- The argument `sizeof(char *) * j` of `malloc` (LP64): the `int` `j` is converted to
`size_t` and the product is reduced modulo `2^64`. -/
def malloc_size (j : Int) : Nat := ((8 * j) % 18446744073709551616).toNat

/-- The `while (i < j)` loop of `lxqt_secret_get_all_keys`, run for at most the given number
of iterations; `none` when the loop has not exited by then. -/
def keys_scan (j : Int) (w : Wallet) : Nat → Int → Int → Keys → Option Keys
  | 0, _, _, _ => none
  | fuel + 1, i, k, c =>
    if i < j then
      match _get_integer_value_0 k w with
      | some e =>
        keys_scan j w fuel (i + 1) (wrap32 (k + 1))
          { entries := c.entries ++ [e], count := wrap32 (c.count + 1) }
      | none => keys_scan j w fuel i (wrap32 (k + 1)) c
    else some c

/-- Source function `lxqt_secret_get_all_keys(keyValues, keyID, &count)`, its loop run for at
most `fuel` iterations.  The allocator `malloc` tells whether a request of the given number
of bytes is granted; when it is not, `c` is NULL, the loop is skipped and `*count` stays 0,
as it does when the gate fails. -/
def lxqt_secret_get_all_keys (malloc : Nat → Bool) (fuel : Nat) (w : Wallet) :
    Option (AllKeys × Wallet) :=
  let g := lxqt_secret_service_wallet_is_open w
  if g.1 then
    let j := _number_of_entries_in_the_wallet g.2
    if malloc (malloc_size j) then
      (keys_scan j g.2 fuel 0 0 { entries := [], count := 0 }).map
        (fun r => ({ array := some r.entries, count := r.count }, g.2))
    else some ({ array := none, count := 0 }, g.2)
  else some ({ array := none, count := 0 }, g.2)

/-- Source function `lxqt_secret_service_wallet_size`. -/
def lxqt_secret_service_wallet_size (w : Wallet) : Int :=
  _number_of_entries_in_the_wallet w

/-- A wallet nothing has been written to, on a backend that accepts every call. -/
def emptyWallet : Wallet := { keyValues := [], keyID := [], faults := [] }

/-! ## Vocabulary of the properties -/

/-- The reserved entries of the value store: the count and the gate entry. -/
def reserved (k : String) : Bool :=
  k = "lxqt_wallet_size" || k = "lxqt_wallet_open"

/-- Number of occupied key-index slots. -/
def occupied (w : Wallet) : Nat :=
  (w.keyID.map Prod.fst).toFinset.card

/-- Number of distinct user keys of the value store (the reserved entries excluded). -/
def userKeys (w : Wallet) : Nat :=
  ((w.keyValues.map Prod.fst).filter (fun k => !reserved k)).toFinset.card

/-- Store the given key / value pairs one after another. -/
def store_all : List (String × String) → Wallet → Wallet
  | [], w => w
  | p :: rest, w => store_all rest (lxqt_secret_service_password_store_sync p.1 p.2 w).2

/-- The keys `ks` sit in the slots `0, 1, ..`, in this order, no other slot is occupied, the
stored count is their number (no size entry when there is none), no key name has `atoi`
value -1, and the backend accepts every call. -/
def storedInOrder (ks : List String) (w : Wallet) : Prop :=
  w.faults = [] ∧ (∀ k ∈ ks, atoi k ≠ -1) ∧
  _get_string_value_0 "lxqt_wallet_size" w
    = (if ks = [] then none else some (snprintf_d (ks.length : Int))) ∧
  ∀ i : Int, _get_integer_value_0 i w = if 0 ≤ i then ks[i.toNat]? else none

/-- The count invariant: the stored count, the number of occupied key-index slots and the
number of distinct user keys of the value store agree. -/
def countInvariant (w : Wallet) : Prop :=
  _number_of_entries_in_the_wallet w = (occupied w : Int) ∧ occupied w = userKeys w

instance (w : Wallet) : Decidable (countInvariant w) := by
  unfold countInvariant; infer_instance

/-- Outcome of the `n`-th upcoming mutating backend call (counting from 0). -/
def accepted (n : Nat) (w : Wallet) : Bool := (w.faults.drop n).headD true

/-- The implicit invariant of the key index: the count (an absent size entry read as 0)
equals the number of occupied slots, and every occupied slot holds a name that is not
reserved and whose `atoi` value is not -1. -/
def slotInvariant (w : Wallet) : Prop :=
  lxqt_secret_service_wallet_size w = (occupied w : Int) ∧
  ∀ i name, _get_integer_value_0 i w = some name → reserved name = false ∧ atoi name ≠ -1

/-- A wallet whose slots `0 .. INT_MAX - 1` all hold the key "a", with the count `INT_MAX`. -/
def crowdedWallet : Wallet :=
  { keyValues := [("lxqt_wallet_size", "2147483647")],
    keyID := (List.range 2147483647).map (fun (n : Nat) => (Int.ofNat n, "a")),
    faults := [] }

/-! ## Lemmas on `int`, `atoi` and `snprintf` -/

theorem wrap32_of_int {x : Int} (h1 : -2147483648 ≤ x) (h2 : x ≤ 2147483647) : wrap32 x = x := by
  unfold wrap32; omega

theorem wrap32_range (x : Int) : -2147483648 ≤ wrap32 x ∧ wrap32 x ≤ 2147483647 := by
  unfold wrap32; omega

theorem digitChar_spec (d : Nat) (h : d < 10) :
    isdigit (Nat.digitChar d) = true ∧ (Nat.digitChar d).toNat - 48 = d := by
  interval_cases d <;> decide

theorem isdigit_not_space {c : Char} (h : isdigit c = true) :
    isspace c = false ∧ c ≠ '-' ∧ c ≠ '+' := by
  simp only [isdigit, Bool.and_eq_true, decide_eq_true_eq] at h
  refine ⟨?_, ?_, ?_⟩
  · simp only [isspace, Bool.or_eq_false_iff, Bool.and_eq_false_iff, decide_eq_false_iff_not]
    omega
  · rintro rfl; revert h; decide
  · rintro rfl; revert h; decide

theorem digitsValue_toDigitsCore (fuel : Nat) :
    ∀ (n : Nat) (ds : List Char) (acc : Nat), n < fuel →
      ∃ L, digitsValue acc (Nat.toDigitsCore 10 fuel n ds) = digitsValue (acc * 10 ^ L + n) ds := by
  induction fuel with
  | zero => intro n ds acc h; omega
  | succ fuel ih =>
    intro n ds acc h
    have hd := digitChar_spec (n % 10) (Nat.mod_lt _ (by decide))
    simp only [Nat.toDigitsCore]
    by_cases h0 : n / 10 = 0
    · refine ⟨1, ?_⟩
      rw [if_pos h0]
      simp only [digitsValue, hd.1, if_true, hd.2]
      congr 1; omega
    · rw [if_neg h0]
      obtain ⟨L, hL⟩ := ih (n / 10) (Nat.digitChar (n % 10) :: ds) acc (by omega)
      refine ⟨L + 1, ?_⟩
      rw [hL]
      simp only [digitsValue, hd.1, if_true, hd.2]
      congr 1
      rw [pow_succ]
      have := Nat.div_add_mod n 10
      nlinarith [this]

theorem toDigitsCore_head (fuel : Nat) :
    ∀ (n : Nat) (ds : List Char),
      ((∃ c rest, ds = c :: rest ∧ isdigit c = true) ∨ 0 < fuel) →
      ∃ c rest, Nat.toDigitsCore 10 fuel n ds = c :: rest ∧ isdigit c = true := by
  induction fuel with
  | zero =>
    intro n ds h
    rcases h with h | h
    · simpa [Nat.toDigitsCore] using h
    · omega
  | succ fuel ih =>
    intro n ds _
    have hd := digitChar_spec (n % 10) (Nat.mod_lt _ (by decide))
    simp only [Nat.toDigitsCore]
    by_cases h0 : n / 10 = 0
    · rw [if_pos h0]; exact ⟨_, _, rfl, hd.1⟩
    · rw [if_neg h0]; exact ih _ _ (Or.inl ⟨_, _, rfl, hd.1⟩)

theorem signedValue_toDigits (n : Nat) :
    signedValue ((Nat.toDigits 10 n).dropWhile isspace) = n := by
  obtain ⟨c, rest, hc, hdig⟩ := toDigitsCore_head (n + 1) n [] (Or.inr (Nat.succ_pos n))
  obtain ⟨L, hL⟩ := digitsValue_toDigitsCore (n + 1) n [] 0 (Nat.lt_succ_self n)
  have hs := isdigit_not_space hdig
  unfold Nat.toDigits
  rw [hc] at hL ⊢
  rw [List.dropWhile_cons_of_neg (by simp [hs.1])]
  simp only [signedValue, if_neg hs.2.1, if_neg hs.2.2, hL]
  simp [digitsValue]

theorem toDigits_length (n : Nat) (h : n ≤ 2147483648) : (Nat.toDigits 10 n).length ≤ 10 :=
  Nat.toDigitsCore_length 10 (by decide) (n + 1) n 10 (by omega) (by decide)

theorem atoi_snprintf_d (j : Int) (h1 : -2147483648 ≤ j) (h2 : j ≤ 2147483647) :
    atoi (snprintf_d j) = j := by
  unfold atoi snprintf_d
  simp only [String.toList]
  by_cases hneg : j < 0
  · have hlen := toDigits_length j.natAbs (by omega)
    rw [if_pos hneg, List.take_of_length_le (by simp [BUFFER_SIZE]; omega)]
    obtain ⟨c, rest, hc, hdig⟩ := toDigitsCore_head (j.natAbs + 1) j.natAbs [] (Or.inr (Nat.succ_pos _))
    obtain ⟨L, hL⟩ := digitsValue_toDigitsCore (j.natAbs + 1) j.natAbs [] 0 (Nat.lt_succ_self _)
    have e : digitsValue 0 (Nat.toDigits 10 j.natAbs) = j.natAbs := by
      unfold Nat.toDigits; rw [hL]; simp [digitsValue]
    unfold strtol
    rw [List.dropWhile_cons_of_neg (by decide)]
    simp only [signedValue, if_true, e]
    rw [wrap32_of_int] <;> simp only [LONG_MIN, LONG_MAX] <;> omega
  · have hlen := toDigits_length j.toNat (by omega)
    rw [if_neg hneg, List.take_of_length_le (by simp [BUFFER_SIZE]; omega)]
    unfold strtol
    rw [signedValue_toDigits]
    rw [wrap32_of_int] <;> simp only [LONG_MIN, LONG_MAX] <;> omega

/-! ## Lemmas on the backend -/

section Backend

variable {α : Type} [DecidableEq α]

theorem clear_cons (a b : α) (v : String) (t : List (α × String)) :
    clear a ((b, v) :: t) = if b = a then clear a t else (b, v) :: clear a t := by
  by_cases h : b = a <;> simp [clear, h]

theorem lookup_cons (a b : α) (v : String) (t : List (α × String)) :
    lookup a ((b, v) :: t) = if b = a then some v else lookup a t := rfl

theorem lookup_clear_self (a : α) (l : List (α × String)) : lookup a (clear a l) = none := by
  induction l with
  | nil => rfl
  | cons p t ih =>
    obtain ⟨b, v⟩ := p
    rw [clear_cons]
    split
    · exact ih
    · rename_i h
      rw [lookup_cons, if_neg h]; exact ih

theorem lookup_clear_ne {a b : α} (h : b ≠ a) (l : List (α × String)) :
    lookup b (clear a l) = lookup b l := by
  induction l with
  | nil => rfl
  | cons p t ih =>
    obtain ⟨c, v⟩ := p
    rw [clear_cons, lookup_cons]
    by_cases hc : c = a
    · have hcb : c ≠ b := fun e => h (e ▸ hc)
      rw [if_pos hc, if_neg hcb]; exact ih
    · rw [if_neg hc, lookup_cons, ih]

theorem lookup_store_self (a : α) (v : String) (l : List (α × String)) :
    lookup a (store a v l) = some v := by
  simp [store, lookup]

theorem lookup_store_ne {a b : α} (h : b ≠ a) (v : String) (l : List (α × String)) :
    lookup b (store a v l) = lookup b l := by
  simp [store, lookup, Ne.symm h, lookup_clear_ne h]

end Backend

/-! ## Lemmas on the sets of attributes -/

section Attributes

variable {α : Type} [DecidableEq α]

theorem lookup_eq_none_iff (a : α) (l : List (α × String)) :
    lookup a l = none ↔ a ∉ (l.map Prod.fst).toFinset := by
  induction l with
  | nil => simp [lookup]
  | cons p t ih =>
    obtain ⟨b, v⟩ := p
    rw [lookup_cons]
    by_cases h : b = a
    · simp [h]
    · rw [if_neg h, ih]
      simp [Ne.symm h]

theorem lookup_isSome_iff (a : α) (l : List (α × String)) :
    (∃ v, lookup a l = some v) ↔ a ∈ (l.map Prod.fst).toFinset := by
  rw [← not_iff_not, ← lookup_eq_none_iff]
  cases lookup a l <;> simp

theorem attributes_clear (a : α) (l : List (α × String)) :
    ((clear a l).map Prod.fst).toFinset = ((l.map Prod.fst).toFinset).erase a := by
  ext b
  rw [Finset.mem_erase, ← lookup_isSome_iff, ← lookup_isSome_iff]
  by_cases h : b = a
  · subst h; simp [lookup_clear_self]
  · simp [lookup_clear_ne h, h]

theorem attributes_store (a : α) (v : String) (l : List (α × String)) :
    ((store a v l).map Prod.fst).toFinset = insert a ((l.map Prod.fst).toFinset) := by
  ext b
  rw [Finset.mem_insert, ← lookup_isSome_iff, ← lookup_isSome_iff]
  by_cases h : b = a
  · subst h; simp [lookup_store_self]
  · simp [lookup_store_ne h, h]

end Attributes

/-! ## Lemmas on the primitives, every call accepted -/

theorem set_string_accepted (key value : String) (w : Wallet) (h : w.faults = []) :
    _set_string_value key value w =
      (true, { keyValues := store value key w.keyValues, keyID := w.keyID, faults := [] }) := by
  simp [_set_string_value, accepts, h]

theorem set_integer_accepted (key : String) (value : Int) (w : Wallet) (h : w.faults = []) :
    _set_integer_value key value w =
      (true, { keyValues := w.keyValues, keyID := store value key w.keyID, faults := [] }) := by
  simp [_set_integer_value, accepts, h]

theorem clear_integer_accepted (k : Int) (w : Wallet) (h : w.faults = []) :
    _clear_integer_value k w =
      (true, { keyValues := w.keyValues, keyID := clear k w.keyID, faults := [] }) := by
  simp [_clear_integer_value, accepts, h]

theorem clear_string_accepted (k : String) (w : Wallet) (h : w.faults = []) :
    _clear_string_value k w =
      (true, { keyValues := clear k w.keyValues, keyID := w.keyID, faults := [] }) := by
  simp [_clear_string_value, accepts, h]

theorem gate_accepted (w : Wallet) (h : w.faults = []) :
    lxqt_secret_service_wallet_is_open w =
      (true, { keyValues := store "lxqt_wallet_open" "lxqt_wallet_open" w.keyValues,
               keyID := w.keyID, faults := [] }) := by
  simp [lxqt_secret_service_wallet_is_open, set_string_accepted _ _ w h]

theorem atoi_one : atoi "1" = 1 := by decide

/-! ## Lemmas on the scans, every call accepted -/

theorem store_claim_accepted (key value : String) (i : Int) (w : Wallet) (h : w.faults = []) :
    store_claim key value i w =
      (true, { keyValues := store key value w.keyValues, keyID := store i key w.keyID,
               faults := [] }) := by
  simp [store_claim, set_integer_accepted _ _ w h, set_string_accepted]

theorem clear_match_accepted (key : String) (k : Int) (w : Wallet) (h : w.faults = []) :
    clear_match key k w =
      { keyValues := clear key (store "lxqt_wallet_size"
          (snprintf_d (wrap32 (_get_string_value "lxqt_wallet_size" w - 1))) w.keyValues),
        keyID := clear k w.keyID, faults := [] } := by
  simp [clear_match, clear_integer_accepted _ w h, set_string_accepted, clear_string_accepted,
    _get_string_value, _get_string_value_0]

theorem store_scan_true (key value : String) :
    ∀ (n : Nat) (i : Int) (w w' : Wallet), w.faults = [] →
      store_scan key value n i w = (true, w') →
      ∃ f, i ≤ f ∧ f < i + n ∧ _get_integer_value f w = -1 ∧
        (∀ x, i ≤ x → x < f → _get_integer_value x w ≠ -1) ∧
        w' = { keyValues := store key value w.keyValues, keyID := store f key w.keyID,
               faults := [] } := by
  intro n
  induction n with
  | zero => intro i w w' _ h; simp [store_scan] at h
  | succ n ih =>
    intro i w w' hacc h
    simp only [store_scan] at h
    by_cases hk : _get_integer_value i w = -1
    · rw [if_pos hk, store_claim_accepted _ _ _ _ hacc] at h
      refine ⟨i, le_refl _, by push_cast; omega, hk, fun x h1 h2 => by omega, ?_⟩
      exact (Prod.mk.inj h).2.symm
    · rw [if_neg hk] at h
      obtain ⟨f, h1, h2, h3, h4, h5⟩ := ih (i + 1) w w' hacc h
      refine ⟨f, by omega, by push_cast; omega, h3, ?_, h5⟩
      intro x hx1 hx2
      by_cases hxi : x = i
      · subst hxi; exact hk
      · exact h4 x (by omega) hx2

theorem store_scan_free (key value : String) :
    ∀ (n : Nat) (i : Int) (w : Wallet) (f : Int), w.faults = [] → i ≤ f → f < i + n →
      (∀ x, i ≤ x → x < f → _get_integer_value x w ≠ -1) → _get_integer_value f w = -1 →
      store_scan key value n i w =
        (true, { keyValues := store key value w.keyValues, keyID := store f key w.keyID,
                 faults := [] }) := by
  intro n
  induction n with
  | zero => intro i w f _ h1 h2; simp at h2; omega
  | succ n ih =>
    intro i w f hacc h1 h2 h3 h4
    simp only [store_scan]
    by_cases hk : _get_integer_value i w = -1
    · have hfi : f = i := by
        by_contra hne
        exact h3 i (le_refl _) (by omega) hk
      subst hfi
      rw [if_pos hk, store_claim_accepted _ _ _ _ hacc]
    · rw [if_neg hk]
      have hfi : f ≠ i := fun e => hk (e ▸ h4)
      exact ih (i + 1) w f hacc (by omega) (by push_cast at h2 ⊢; omega)
        (fun x hx1 hx2 => h3 x (by omega) hx2) h4

theorem clear_scan_true (key : String) (j : Int) :
    ∀ (fuel : Nat) (i k : Int) (w w' : Wallet),
      clear_scan key j fuel i k w = some (true, w') →
      ∃ m, _get_integer_value_0 m w = some key ∧ w' = clear_match key m w := by
  intro fuel
  induction fuel with
  | zero => intro i k w w' h; simp [clear_scan] at h
  | succ fuel ih =>
    intro i k w w' h
    simp only [clear_scan] at h
    by_cases hij : i ≤ j
    · rw [if_pos hij] at h
      cases hc : _get_integer_value_0 k w with
      | none => rw [hc] at h; exact ih _ _ _ _ h
      | some c =>
        rw [hc] at h
        simp only at h
        by_cases hck : c = key
        · rw [if_pos hck] at h
          refine ⟨k, hck ▸ hc, ?_⟩
          simpa using h.symm
        · rw [if_neg hck] at h; exact ih _ _ _ _ h
    · rw [if_neg hij] at h; simp at h

/-! ## Lemmas on the operations, every call accepted -/

theorem size_ne_open : ("lxqt_wallet_size" : String) ≠ "lxqt_wallet_open" := by decide

theorem get_size_after_gate (w : Wallet) :
    _get_string_value "lxqt_wallet_size"
      { keyValues := store "lxqt_wallet_open" "lxqt_wallet_open" w.keyValues,
        keyID := w.keyID, faults := [] } = _get_string_value "lxqt_wallet_size" w := by
  simp only [_get_string_value, _get_string_value_0]
  rw [lookup_store_ne size_ne_open]

theorem get_integer_value_congr (i : Int) (w w' : Wallet) (h : w.keyID = w'.keyID) :
    _get_integer_value i w = _get_integer_value i w' := by
  simp only [_get_integer_value, _get_integer_value_0, h]

theorem get_string_value_range (key : String) (w : Wallet) :
    -2147483648 ≤ _get_string_value key w ∧ _get_string_value key w ≤ 2147483647 := by
  unfold _get_string_value
  cases _get_string_value_0 key w with
  | none => constructor <;> decide
  | some c => exact wrap32_range _

theorem store_sync_true (key value : String) (w w' : Wallet) (hacc : w.faults = [])
    (h : lxqt_secret_service_password_store_sync key value w = (true, w')) :
    ∃ f : Int, 0 ≤ _get_string_value "lxqt_wallet_size" w ∧
      _get_string_value "lxqt_wallet_size" w < 2147483647 ∧
      0 ≤ f ∧ f ≤ _get_string_value "lxqt_wallet_size" w ∧
      (∀ x, 0 ≤ x → x < f → _get_integer_value x w ≠ -1) ∧
      _get_integer_value f w = -1 ∧
      w' = { keyValues := store key value (store "lxqt_wallet_size"
               (snprintf_d (_get_string_value "lxqt_wallet_size" w + 1))
               (store "lxqt_wallet_open" "lxqt_wallet_open" w.keyValues)),
             keyID := store f key w.keyID, faults := [] } := by
  have hr := get_string_value_range "lxqt_wallet_size" w
  simp only [lxqt_secret_service_password_store_sync, gate_accepted w hacc,
    get_size_after_gate, Bool.not_true, Bool.false_eq_true, if_false] at h
  by_cases hj : _get_string_value "lxqt_wallet_size" w = -1
  · rw [if_pos hj] at h; simp at h
  · rw [if_neg hj] at h
    simp only [set_string_accepted] at h
    obtain ⟨f, h1, h2, h3, h4, h5⟩ := store_scan_true key value _ _ _ _ rfl h
    have hpos : 0 < wrap32 (_get_string_value "lxqt_wallet_size" w + 1) := by
      by_contra hn
      rw [Int.toNat_of_nonpos (not_lt.mp hn)] at h2
      simp at h2; omega
    have hw : wrap32 (_get_string_value "lxqt_wallet_size" w + 1)
        = _get_string_value "lxqt_wallet_size" w + 1 := by
      unfold wrap32 at hpos ⊢; omega
    rw [hw] at hpos h2 h5
    rw [Int.toNat_of_nonneg (le_of_lt hpos)] at h2
    refine ⟨f, by omega, ?_, h1, by omega, ?_, ?_, h5⟩
    · unfold wrap32 at hw; omega
    · intro x hx1 hx2
      rw [get_integer_value_congr x w _ rfl]; exact h4 x hx1 hx2
    · rw [get_integer_value_congr f w _ rfl]; exact h3

theorem clear_sync_true (fuel : Nat) (key : String) (w w' : Wallet) (hacc : w.faults = [])
    (h : lxqt_secret_service_clear_sync fuel key w = some (true, w')) :
    ∃ m : Int, _get_integer_value_0 m w = some key ∧
      w' = { keyValues := clear key (store "lxqt_wallet_size"
               (snprintf_d (wrap32 (_get_string_value "lxqt_wallet_size" w - 1)))
               (store "lxqt_wallet_open" "lxqt_wallet_open" w.keyValues)),
             keyID := clear m w.keyID, faults := [] } := by
  simp only [lxqt_secret_service_clear_sync, gate_accepted w hacc, Bool.not_true,
    Bool.false_eq_true, if_false] at h
  obtain ⟨m, hm, hw⟩ := clear_scan_true key _ fuel _ _ _ _ h
  refine ⟨m, hm, ?_⟩
  rw [hw, clear_match_accepted _ _ _ rfl, get_size_after_gate]

theorem gate_passed (w : Wallet) (h : (lxqt_secret_service_wallet_is_open w).1 = true) :
    lxqt_secret_service_wallet_is_open w
      = (true, { keyValues := store "lxqt_wallet_open" "lxqt_wallet_open" w.keyValues,
                 keyID := w.keyID, faults := w.faults.tail }) := by
  unfold lxqt_secret_service_wallet_is_open _set_string_value at h ⊢
  by_cases ha : accepts w = true
  · rw [if_pos ha]
  · rw [if_neg ha] at h; simp at h

/-! ## C1: the first insert -/

/-- C1 (code defect): on a wallet whose size entry is absent and whose backend accepts every
write, `lxqt_secret_service_password_store_sync key value` returns FALSE although it sets the
count to 1 and puts `key` into slot 0; no `key -> value` entry is written: for a key that is
not a reserved name the value store answers as it did before the call. -/
theorem first_insert_returns_false (key value : String) (w : Wallet)
    (hsize : _get_string_value_0 "lxqt_wallet_size" w = none) (hacc : w.faults = []) :
    (lxqt_secret_service_password_store_sync key value w).1 = false ∧
    lxqt_secret_service_wallet_size (lxqt_secret_service_password_store_sync key value w).2 = 1 ∧
    _get_integer_value_0 0 (lxqt_secret_service_password_store_sync key value w).2 = some key ∧
    (reserved key = false →
      lxqt_secret_service_get_value key (lxqt_secret_service_password_store_sync key value w).2
        = lxqt_secret_service_get_value key w) := by
  have hne : ("lxqt_wallet_size" : String) ≠ "lxqt_wallet_open" := by decide
  have hj : _get_string_value "lxqt_wallet_size"
      { keyValues := store "lxqt_wallet_open" "lxqt_wallet_open" w.keyValues,
        keyID := w.keyID, faults := [] } = -1 := by
    simp only [_get_string_value, _get_string_value_0] at hsize ⊢
    rw [lookup_store_ne hne, hsize]
  simp only [lxqt_secret_service_password_store_sync, gate_accepted w hacc, hj,
    set_string_accepted, set_integer_accepted, Bool.not_true, Bool.false_eq_true, if_false,
    if_true]
  refine ⟨trivial, ?_, ?_, ?_⟩
  · simp [lxqt_secret_service_wallet_size, _number_of_entries_in_the_wallet, _get_string_value,
      _get_string_value_0, lookup_store_self, atoi_one]
  · simp [_get_integer_value_0, lookup_store_self]
  · intro hres
    have h1 : key ≠ "lxqt_wallet_size" := by
      intro e; simp [reserved, e] at hres
    have h2 : key ≠ "lxqt_wallet_open" := by
      intro e; simp [reserved, e] at hres
    simp [lxqt_secret_service_get_value, _get_string_value_0, lookup_store_ne h1,
      lookup_store_ne h2]

/-- C1, at the never-written wallet with key "a" and value "b": FALSE is returned and the
value store has no entry for "a". -/
theorem first_insert_returns_false_witness :
    (lxqt_secret_service_password_store_sync "a" "b" emptyWallet).1 = false ∧
    lxqt_secret_service_wallet_size
      (lxqt_secret_service_password_store_sync "a" "b" emptyWallet).2 = 1 ∧
    _get_integer_value_0 0 (lxqt_secret_service_password_store_sync "a" "b" emptyWallet).2
      = some "a" ∧
    lxqt_secret_service_get_value "a"
      (lxqt_secret_service_password_store_sync "a" "b" emptyWallet).2 = none := by
  have h := first_insert_returns_false "a" "b" emptyWallet rfl rfl
  exact ⟨h.1, h.2.1, h.2.2.1, (h.2.2.2 (by decide)).trans rfl⟩

/-! ## C2: slot reuse -/

/-- C2 (code defect): the free-slot test of `lxqt_secret_service_password_store_sync` is
`_get_integer_value(keyID, i) == -1`, which also holds for an occupied slot whose key name
has `atoi` value -1.  In the wallet with count 1 and slot 0 holding the key "-1" (slot 1 is
the lowest slot whose lookup is absent), storing "D" overwrites slot 0 and leaves slot 1
absent.  The scenario of the claim itself is met: with A, B, C in slots 0, 1, 2, after
clearing B, storing D puts D into slot 1 and slot 3 stays absent. -/
theorem store_overwrites_slot_named_minus_one :
    (_number_of_entries_in_the_wallet
        { keyValues := [("lxqt_wallet_size", "1")], keyID := [(0, "-1")], faults := [] } = 1 ∧
      occupied
        { keyValues := [("lxqt_wallet_size", "1")], keyID := [(0, "-1")], faults := [] } = 1 ∧
      _get_integer_value_0 0
        { keyValues := [("lxqt_wallet_size", "1")], keyID := [(0, "-1")], faults := [] }
        = some "-1" ∧
      _get_integer_value_0 1
        { keyValues := [("lxqt_wallet_size", "1")], keyID := [(0, "-1")], faults := [] }
        = none ∧
      lxqt_secret_service_password_store_sync "D" "v"
        { keyValues := [("lxqt_wallet_size", "1")], keyID := [(0, "-1")], faults := [] }
        = (true,
            { keyValues := [("D", "v"), ("lxqt_wallet_size", "2"),
                ("lxqt_wallet_open", "lxqt_wallet_open")],
              keyID := [(0, "D")], faults := [] })) ∧
    ((lxqt_secret_service_clear_sync 2 "B"
        (lxqt_secret_service_password_store_sync "C" "c"
          (lxqt_secret_service_password_store_sync "B" "b"
            (lxqt_secret_service_password_store_sync "A" "a" emptyWallet).2).2).2).map
        (fun r => (r.1, r.2.keyID,
          (lxqt_secret_service_password_store_sync "D" "d" r.2).2.keyID))
      = some (true, [(2, "C"), (0, "A")], [(1, "D"), (2, "C"), (0, "A")])) := by
  decide

/-! ## C3: the count invariant -/

theorem number_of_entries_eq (w : Wallet) (h : _get_string_value "lxqt_wallet_size" w ≠ -1) :
    _number_of_entries_in_the_wallet w = _get_string_value "lxqt_wallet_size" w := by
  simp [_number_of_entries_in_the_wallet, h]

theorem userKeys_store (key value : String) (kv : List (String × String)) (keyID : List (Int × String))
    (fl fl' : List Bool) (hkey : reserved key = false) (hnew : lookup key kv = none) :
    userKeys { keyValues := store key value kv, keyID := keyID, faults := fl }
      = userKeys { keyValues := kv, keyID := keyID, faults := fl' } + 1 := by
  simp only [userKeys, List.toFinset_filter, attributes_store]
  rw [Finset.filter_insert]
  simp only [hkey, Bool.not_false, if_true]
  rw [Finset.card_insert_of_not_mem]
  rw [Finset.mem_filter]
  rintro ⟨hmem, _⟩
  exact (lookup_eq_none_iff key kv).1 hnew hmem

theorem userKeys_store_reserved (key value : String) (kv : List (String × String))
    (keyID keyID' : List (Int × String)) (fl fl' : List Bool) (hkey : reserved key = true) :
    userKeys { keyValues := store key value kv, keyID := keyID, faults := fl }
      = userKeys { keyValues := kv, keyID := keyID', faults := fl' } := by
  simp only [userKeys, List.toFinset_filter, attributes_store]
  rw [Finset.filter_insert]
  simp [hkey]

theorem userKeys_clear (key : String) (kv : List (String × String)) (keyID : List (Int × String))
    (fl fl' : List Bool) (hkey : reserved key = false) (hold : lookup key kv ≠ none) :
    userKeys { keyValues := clear key kv, keyID := keyID, faults := fl } + 1
      = userKeys { keyValues := kv, keyID := keyID, faults := fl' } := by
  simp only [userKeys, List.toFinset_filter, attributes_clear]
  rw [Finset.filter_erase]
  apply Finset.card_erase_add_one
  rw [Finset.mem_filter]
  refine ⟨?_, by simp [hkey]⟩
  by_contra hmem
  exact hold ((lookup_eq_none_iff key kv).2 hmem)

/-- C3 (amended): on a backend that accepts every call, from a state in which count = number
of occupied slots = number of distinct user keys, and for a user key, a store that returns
TRUE leads to a state with the same two equalities provided the key had no value entry and
no occupied slot holds a name whose `atoi` is -1; a clear that returns TRUE does so provided
the key had a value entry. -/
theorem count_invariant_step (key value : String) (w w' : Wallet) (hacc : w.faults = [])
    (hinv : countInvariant w) (hkey : reserved key = false) :
    ((∀ i name, _get_integer_value_0 i w = some name → atoi name ≠ -1) →
      lxqt_secret_service_get_value key w = none →
      lxqt_secret_service_password_store_sync key value w = (true, w') → countInvariant w') ∧
    (∀ fuel, lxqt_secret_service_get_value key w ≠ none →
      lxqt_secret_service_clear_sync fuel key w = some (true, w') → countInvariant w') := by
  have hk1 : key ≠ "lxqt_wallet_size" := by
    intro e; simp [reserved, e] at hkey
  obtain ⟨hcount, husers⟩ := hinv
  constructor
  · intro hnames hnew h
    obtain ⟨f, hj0, hjmax, hf0, hfj, _, hfree, hw'⟩ := store_sync_true key value w w' hacc h
    have hjne : _get_string_value "lxqt_wallet_size" w ≠ -1 := by omega
    rw [number_of_entries_eq w hjne] at hcount
    have habsent : lookup f w.keyID = none := by
      cases hl : lookup f w.keyID with
      | none => rfl
      | some name =>
        exfalso
        apply hnames f name hl
        simpa [_get_integer_value, _get_integer_value_0, hl] using hfree
    have hocc : occupied w' = occupied w + 1 := by
      rw [hw']
      simp only [occupied, attributes_store]
      exact Finset.card_insert_of_not_mem ((lookup_eq_none_iff f w.keyID).1 habsent)
    have huk : userKeys w' = userKeys w + 1 := by
      rw [hw', userKeys_store key value _ _ _ [] hkey,
        userKeys_store_reserved _ _ _ _ w.keyID _ [] (by decide),
        userKeys_store_reserved _ _ _ _ w.keyID _ w.faults (by decide)]
      rw [lookup_store_ne hk1, lookup_store_ne]
      · exact hnew
      · intro e; simp [reserved, e] at hkey
    have hsize : _get_string_value "lxqt_wallet_size" w'
        = _get_string_value "lxqt_wallet_size" w + 1 := by
      rw [hw']
      have e0 := hj0
      have e1 := hjmax
      simp only [_get_string_value, _get_string_value_0] at e0 e1 ⊢
      rw [lookup_store_ne (Ne.symm hk1), lookup_store_self]
      exact atoi_snprintf_d _ (by omega) (by omega)
    refine ⟨?_, by omega⟩
    rw [number_of_entries_eq w' (by omega), hsize, hocc, hcount]
    push_cast; ring
  · intro fuel hold h
    obtain ⟨m, hm, hw'⟩ := clear_sync_true fuel key w w' hacc h
    have hmem : m ∈ (w.keyID.map Prod.fst).toFinset :=
      (lookup_isSome_iff m w.keyID).1 ⟨key, hm⟩
    have hocc : occupied w' + 1 = occupied w := by
      rw [hw']
      simp only [occupied, attributes_clear]
      exact Finset.card_erase_add_one hmem
    have hpos : 0 < occupied w := by omega
    have hjne : _get_string_value "lxqt_wallet_size" w ≠ -1 := by
      intro e
      simp [_number_of_entries_in_the_wallet, e] at hcount
      omega
    rw [number_of_entries_eq w hjne] at hcount
    have huk : userKeys w' + 1 = userKeys w := by
      rw [hw', userKeys_clear key _ _ _ [] hkey,
        userKeys_store_reserved _ _ _ _ w.keyID _ [] (by decide),
        userKeys_store_reserved _ _ _ _ w.keyID _ w.faults (by decide)]
      rw [lookup_store_ne hk1, lookup_store_ne]
      · exact hold
      · intro e; simp [reserved, e] at hkey
    have hsize : _get_string_value "lxqt_wallet_size" w'
        = _get_string_value "lxqt_wallet_size" w - 1 := by
      rw [hw']
      simp only [_get_string_value, _get_string_value_0]
      rw [lookup_clear_ne (Ne.symm hk1), lookup_store_self]
      have hr := get_string_value_range "lxqt_wallet_size" w
      simp only [_get_string_value, _get_string_value_0] at hr hcount
      rw [wrap32_of_int (by omega) (by omega)]
      exact atoi_snprintf_d _ (by omega) (by omega)
    refine ⟨?_, by omega⟩
    rw [number_of_entries_eq w' (by omega), hsize, hcount]
    omega

/-- C3, at the wallet with the single key "a" in slot 0: storing the new key "b" and
clearing "a" both keep the count invariant. -/
theorem count_invariant_step_witness :
    countInvariant
      (lxqt_secret_service_password_store_sync "b" "y"
        { keyValues := [("a", "x"), ("lxqt_wallet_size", "1")], keyID := [(0, "a")],
          faults := [] }).2 ∧
    countInvariant
      { keyValues := [("lxqt_wallet_size", "0"), ("lxqt_wallet_open", "lxqt_wallet_open")],
        keyID := [], faults := [] } := by
  constructor
  · refine (count_invariant_step "b" "y"
      { keyValues := [("a", "x"), ("lxqt_wallet_size", "1")], keyID := [(0, "a")],
        faults := [] } _ rfl (by decide) (by decide)).1 ?_ (by decide) (by decide)
    intro i name h
    simp only [_get_integer_value_0, lookup] at h
    split at h
    · cases h; decide
    · cases h
  · exact (count_invariant_step "a" "x"
      { keyValues := [("a", "x"), ("lxqt_wallet_size", "1")], keyID := [(0, "a")],
        faults := [] } _ rfl (by decide) (by decide)).2 1 (by decide) (by decide)

/-- C3 as stated fails: in the wallet with the single key "a" (count 1, one occupied slot,
one user key), storing "a" again returns TRUE and leaves count 2 and two occupied slots
for one user key. -/
theorem count_invariant_broken_by_second_store :
    countInvariant
      { keyValues := [("a", "x"), ("lxqt_wallet_size", "1")], keyID := [(0, "a")],
        faults := [] } ∧
    reserved "a" = false ∧
    lxqt_secret_service_password_store_sync "a" "z"
      { keyValues := [("a", "x"), ("lxqt_wallet_size", "1")], keyID := [(0, "a")],
        faults := [] }
      = (true,
          { keyValues := [("a", "z"), ("lxqt_wallet_size", "2"),
              ("lxqt_wallet_open", "lxqt_wallet_open")],
            keyID := [(1, "a"), (0, "a")], faults := [] }) ∧
    ¬ countInvariant
      { keyValues := [("a", "z"), ("lxqt_wallet_size", "2"),
          ("lxqt_wallet_open", "lxqt_wallet_open")],
        keyID := [(1, "a"), (0, "a")], faults := [] } := by
  decide

/-! ## C4: clearing a key that is not in the wallet -/

theorem clear_scan_empty_index (key : String) (j : Int) (w : Wallet) (hslots : w.keyID = [])
    (hj : 0 ≤ j) : ∀ (fuel : Nat) (k : Int), clear_scan key j fuel 0 k w = none := by
  intro fuel
  induction fuel with
  | zero => intro k; rfl
  | succ fuel ih =>
    intro k
    simp only [clear_scan, if_pos hj, _get_integer_value_0, hslots, lookup]
    exact ih _

theorem card_slots_below_step (S : Finset Int) (k : Int) (hk : 0 ≤ k) :
    (S.filter (fun x => 0 ≤ x ∧ x < k + 1)).card
      = (S.filter (fun x => 0 ≤ x ∧ x < k)).card + (if k ∈ S then 1 else 0) := by
  by_cases hmem : k ∈ S
  · rw [if_pos hmem]
    have e : S.filter (fun x => 0 ≤ x ∧ x < k + 1)
        = insert k (S.filter (fun x => 0 ≤ x ∧ x < k)) := by
      ext x
      simp only [Finset.mem_filter, Finset.mem_insert]
      constructor
      · rintro ⟨hx, h1, h2⟩
        by_cases hxk : x = k
        · exact Or.inl hxk
        · exact Or.inr ⟨hx, h1, by omega⟩
      · rintro (rfl | ⟨hx, h1, h2⟩)
        · exact ⟨hmem, hk, by omega⟩
        · exact ⟨hx, h1, by omega⟩
    rw [e, Finset.card_insert_of_not_mem]
    simp
  · rw [if_neg hmem, add_zero]
    congr 1
    ext x
    simp only [Finset.mem_filter]
    constructor
    · rintro ⟨hx, h1, h2⟩
      have : x ≠ k := fun e => hmem (e ▸ hx)
      exact ⟨hx, h1, by omega⟩
    · rintro ⟨hx, h1, h2⟩
      exact ⟨hx, h1, by omega⟩

theorem clear_scan_absent (key : String) (j : Int) (w : Wallet)
    (hj : ((w.keyID.map Prod.fst).toFinset.card : Int) ≤ j) (hjmax : j ≤ 2147483647)
    (habsent : ∀ i, _get_integer_value_0 i w ≠ some key) :
    ∀ (fuel : Nat) (i k : Int), 0 ≤ k → k + fuel ≤ 2147483648 → 0 ≤ i →
      i ≤ (((w.keyID.map Prod.fst).toFinset.filter (fun x => 0 ≤ x ∧ x < k)).card : Int) →
      clear_scan key j fuel i k w = none := by
  intro fuel
  induction fuel with
  | zero => intro i k _ _ _ _; rfl
  | succ fuel ih =>
    intro i k hk hfuel hi hcnt
    have hsub : ∀ k' : Int,
        (((w.keyID.map Prod.fst).toFinset.filter (fun x => 0 ≤ x ∧ x < k')).card : Int)
          ≤ j := by
      intro k'
      have := Finset.card_le_card
        (Finset.filter_subset (fun x => 0 ≤ x ∧ x < k') (w.keyID.map Prod.fst).toFinset)
      omega
    have hij : i ≤ j := le_trans hcnt (hsub k)
    have hstep := card_slots_below_step (w.keyID.map Prod.fst).toFinset k hk
    simp only [clear_scan, if_pos hij]
    cases fuel with
    | zero =>
      cases hc : _get_integer_value_0 k w with
      | none => rfl
      | some c =>
        have hck : c ≠ key := fun e => habsent k (e ▸ hc)
        simp only [if_neg hck]
        rfl
    | succ fuel =>
      have hwk : wrap32 (k + 1) = k + 1 :=
        wrap32_of_int (by omega) (by push_cast at hfuel; omega)
      cases hc : _get_integer_value_0 k w with
      | none =>
        have hnot : k ∉ (w.keyID.map Prod.fst).toFinset :=
          (lookup_eq_none_iff k w.keyID).1 hc
        rw [if_neg hnot, add_zero] at hstep
        simp only [hwk]
        exact ih i (k + 1) (by omega) (by push_cast at hfuel ⊢; omega) hi
          (by rw [hstep]; exact hcnt)
      | some c =>
        have hin : k ∈ (w.keyID.map Prod.fst).toFinset :=
          (lookup_isSome_iff k w.keyID).1 ⟨c, hc⟩
        rw [if_pos hin] at hstep
        have hck : c ≠ key := fun e => habsent k (e ▸ hc)
        have hle := hsub (k + 1)
        rw [hstep] at hle
        push_cast at hle
        have hwi : wrap32 (i + 1) = i + 1 := wrap32_of_int (by omega) (by omega)
        simp only [if_neg hck, hwk, hwi]
        exact ih (i + 1) (k + 1) (by omega) (by push_cast at hfuel ⊢; omega) (by omega)
          (by rw [hstep]; push_cast; omega)

/-- C4 (code defect): in a state where count = number of occupied slots, with the gate
passing, `lxqt_secret_service_clear_sync` of a key that no slot holds does not return FALSE:
the loop `while (i <= j)` needs `j + 1` occupied slots to exit and only `j` exist, so it is
still running after 2^31 iterations, when `k` has passed every `int` slot number; with no
occupied slot at all (the empty wallet) no number of iterations makes it exit. -/
theorem clear_absent_key_never_returns (key : String) (w : Wallet) (fuel : Nat)
    (hacc : w.faults = [])
    (hcount : _number_of_entries_in_the_wallet w = (occupied w : Int))
    (habsent : ∀ i, _get_integer_value_0 i w ≠ some key)
    (hfuel : fuel ≤ 2147483648 ∨ w.keyID = []) :
    lxqt_secret_service_clear_sync fuel key w = none := by
  simp only [lxqt_secret_service_clear_sync, gate_accepted w hacc, Bool.not_true,
    Bool.false_eq_true, if_false]
  rcases hfuel with hfuel | hslots
  · have hjmax : _number_of_entries_in_the_wallet w ≤ 2147483647 := by
      have hr := get_string_value_range "lxqt_wallet_size" w
      simp only [_number_of_entries_in_the_wallet]
      split <;> omega
    exact clear_scan_absent key _
      { keyValues := store "lxqt_wallet_open" "lxqt_wallet_open" w.keyValues,
        keyID := w.keyID, faults := [] } (by rw [hcount]; exact le_refl _) hjmax habsent
      fuel 0 0 (le_refl _) (by omega) (le_refl _) (by positivity)
  · exact clear_scan_empty_index key _
      { keyValues := store "lxqt_wallet_open" "lxqt_wallet_open" w.keyValues,
        keyID := w.keyID, faults := [] } hslots
      (by rw [hcount]; positivity) fuel 0

/-- C4, at the never-written wallet and the key "a": a million iterations do not suffice. -/
theorem clear_absent_key_never_returns_witness :
    lxqt_secret_service_clear_sync 1000000 "a" emptyWallet = none :=
  clear_absent_key_never_returns "a" emptyWallet 1000000 rfl (by decide)
    (by intro i; simp [_get_integer_value_0, emptyWallet, lookup]) (Or.inr rfl)

/-! ## C7: the gate -/

theorem gate_refused (w : Wallet) (h : (lxqt_secret_service_wallet_is_open w).1 = false) :
    lxqt_secret_service_wallet_is_open w
      = (false, { keyValues := w.keyValues, keyID := w.keyID, faults := w.faults.tail }) := by
  unfold lxqt_secret_service_wallet_is_open _set_string_value at h ⊢
  by_cases ha : accepts w = true
  · rw [if_pos ha] at h; simp at h
  · rw [if_neg ha]

/-- C7: when the gate write of `lxqt_secret_service_wallet_is_open` fails, store and clear
return FALSE, `lxqt_secret_get_all_keys` returns no entry (the NULL pointer, whatever the
allocator would grant) with `*count = 0`, and in all three cases both schemas (hence the
stored count, every key-index slot and every value-store entry) are what they were before the
call. -/
theorem gate_failure_aborts (key value : String) (w : Wallet) (fuel : Nat)
    (malloc : Nat → Bool)
    (hgate : (lxqt_secret_service_wallet_is_open w).1 = false) :
    ((lxqt_secret_service_password_store_sync key value w).1 = false ∧
      (lxqt_secret_service_password_store_sync key value w).2.keyValues = w.keyValues ∧
      (lxqt_secret_service_password_store_sync key value w).2.keyID = w.keyID) ∧
    (∃ w', lxqt_secret_service_clear_sync fuel key w = some (false, w') ∧
      w'.keyValues = w.keyValues ∧ w'.keyID = w.keyID) ∧
    (∃ w', lxqt_secret_get_all_keys malloc fuel w = some ({ array := none, count := 0 }, w') ∧
      w'.keyValues = w.keyValues ∧ w'.keyID = w.keyID) := by
  have hg := gate_refused w hgate
  refine ⟨?_, ?_, ?_⟩
  · simp [lxqt_secret_service_password_store_sync, hg]
  · exact ⟨{ keyValues := w.keyValues, keyID := w.keyID, faults := w.faults.tail },
      by simp [lxqt_secret_service_clear_sync, hg], rfl, rfl⟩
  · exact ⟨{ keyValues := w.keyValues, keyID := w.keyID, faults := w.faults.tail },
      by simp [lxqt_secret_get_all_keys, hg], rfl, rfl⟩

/-- C7, at the wallet holding "a" in slot 0 whose backend refuses the next write. -/
theorem gate_failure_aborts_witness :
    ((lxqt_secret_service_password_store_sync "b" "y"
        { keyValues := [("a", "x"), ("lxqt_wallet_size", "1")], keyID := [(0, "a")],
          faults := [false] }).1 = false ∧
      (lxqt_secret_service_password_store_sync "b" "y"
        { keyValues := [("a", "x"), ("lxqt_wallet_size", "1")], keyID := [(0, "a")],
          faults := [false] }).2.keyValues = [("a", "x"), ("lxqt_wallet_size", "1")] ∧
      (lxqt_secret_service_password_store_sync "b" "y"
        { keyValues := [("a", "x"), ("lxqt_wallet_size", "1")], keyID := [(0, "a")],
          faults := [false] }).2.keyID = [(0, "a")]) ∧
    (∃ w', lxqt_secret_service_clear_sync 5 "b"
        { keyValues := [("a", "x"), ("lxqt_wallet_size", "1")], keyID := [(0, "a")],
          faults := [false] } = some (false, w') ∧
      w'.keyValues = [("a", "x"), ("lxqt_wallet_size", "1")] ∧ w'.keyID = [(0, "a")]) ∧
    (∃ w', lxqt_secret_get_all_keys (fun _ => true) 5
        { keyValues := [("a", "x"), ("lxqt_wallet_size", "1")], keyID := [(0, "a")],
          faults := [false] } = some ({ array := none, count := 0 }, w') ∧
      w'.keyValues = [("a", "x"), ("lxqt_wallet_size", "1")] ∧ w'.keyID = [(0, "a")]) :=
  gate_failure_aborts "b" "y"
    { keyValues := [("a", "x"), ("lxqt_wallet_size", "1")], keyID := [(0, "a")],
      faults := [false] } 5 (fun _ => true) (by decide)

/-! ## C6: clearing a key that is in the wallet -/

theorem card_slots_between_step (S : Finset Int) (k m : Int) (hk : k < m) :
    (S.filter (fun x => k ≤ x ∧ x < m)).card
      = (S.filter (fun x => k + 1 ≤ x ∧ x < m)).card + (if k ∈ S then 1 else 0) := by
  by_cases hmem : k ∈ S
  · rw [if_pos hmem]
    have e : S.filter (fun x => k ≤ x ∧ x < m)
        = insert k (S.filter (fun x => k + 1 ≤ x ∧ x < m)) := by
      ext x
      simp only [Finset.mem_filter, Finset.mem_insert]
      constructor
      · rintro ⟨hx, h1, h2⟩
        by_cases hxk : x = k
        · exact Or.inl hxk
        · exact Or.inr ⟨hx, by omega, h2⟩
      · rintro (rfl | ⟨hx, h1, h2⟩)
        · exact ⟨hmem, le_refl _, hk⟩
        · exact ⟨hx, by omega, h2⟩
    rw [e, Finset.card_insert_of_not_mem]
    simp
  · rw [if_neg hmem, add_zero]
    congr 1
    ext x
    simp only [Finset.mem_filter]
    constructor
    · rintro ⟨hx, h1, h2⟩
      have : x ≠ k := fun e => hmem (e ▸ hx)
      exact ⟨hx, by omega, h2⟩
    · rintro ⟨hx, h1, h2⟩
      exact ⟨hx, by omega, h2⟩

theorem clear_scan_finds (key : String) (j m : Int) (w : Wallet)
    (hm : _get_integer_value_0 m w = some key) (hmmax : m ≤ 2147483647)
    (hjmax : j ≤ 2147483647) :
    ∀ (fuel : Nat) (i k : Int), (m - k).toNat < fuel → 0 ≤ i → 0 ≤ k → k ≤ m →
      i + (((w.keyID.map Prod.fst).toFinset.filter (fun x => k ≤ x ∧ x < m)).card : Int) ≤ j →
      (∀ x, k ≤ x → x < m → _get_integer_value_0 x w ≠ some key) →
      clear_scan key j fuel i k w = some (true, clear_match key m w) := by
  intro fuel
  induction fuel with
  | zero => intro i k h; omega
  | succ fuel ih =>
    intro i k hfuel hi hk hkm hcnt hlow
    have hij : i ≤ j := by
      have := Int.natCast_nonneg
        ((w.keyID.map Prod.fst).toFinset.filter (fun x => k ≤ x ∧ x < m)).card
      omega
    simp only [clear_scan, if_pos hij]
    by_cases hkeq : k = m
    · subst hkeq
      simp [hm]
    · have hlt : k < m := by omega
      have hstep := card_slots_between_step (w.keyID.map Prod.fst).toFinset k m hlt
      have hwk : wrap32 (k + 1) = k + 1 := wrap32_of_int (by omega) (by omega)
      cases hc : _get_integer_value_0 k w with
      | none =>
        have hnot : k ∉ (w.keyID.map Prod.fst).toFinset :=
          (lookup_eq_none_iff k w.keyID).1 hc
        rw [if_neg hnot, add_zero] at hstep
        simp only [hwk]
        exact ih i (k + 1) (by omega) hi (by omega) (by omega) (by rw [← hstep]; exact hcnt)
          (fun x h1 h2 => hlow x (by omega) h2)
      | some c =>
        have hin : k ∈ (w.keyID.map Prod.fst).toFinset :=
          (lookup_isSome_iff k w.keyID).1 ⟨c, hc⟩
        rw [if_pos hin] at hstep
        have hck : c ≠ key := by
          intro e; exact hlow k (le_refl _) hlt (e ▸ hc)
        have hwi : wrap32 (i + 1) = i + 1 := by
          apply wrap32_of_int <;> omega
        simp only [if_neg hck, hwk, hwi]
        exact ih (i + 1) (k + 1) (by omega) (by omega) (by omega) (by omega)
          (by rw [hstep] at hcnt; push_cast at hcnt; omega)
          (fun x h1 h2 => hlow x (by omega) h2)

/-- C6: on a backend that accepts every call, in a state where count = number of occupied
slots, clearing a user key whose lowest-numbered slot is `m` (a non-negative `int`) returns
TRUE after `m + 1` loop iterations; afterwards slot `m` is absent, the stored count is the
old count minus one, the value entry of the key is absent, and every other slot and every
other user value entry is unchanged. -/
theorem clear_on_match (key : String) (w : Wallet) (m : Int) (hacc : w.faults = [])
    (hcount : _number_of_entries_in_the_wallet w = (occupied w : Int))
    (hkey : reserved key = false)
    (hm : _get_integer_value_0 m w = some key)
    (hlow : ∀ i, i < m → _get_integer_value_0 i w ≠ some key)
    (hm0 : 0 ≤ m) (hmmax : m ≤ INT_MAX) :
    ∃ w', (∀ fuel, m.toNat < fuel →
        lxqt_secret_service_clear_sync fuel key w = some (true, w')) ∧
      _get_integer_value_0 m w' = none ∧
      _number_of_entries_in_the_wallet w' = _number_of_entries_in_the_wallet w - 1 ∧
      lxqt_secret_service_get_value key w' = none ∧
      (∀ i, i ≠ m → _get_integer_value_0 i w' = _get_integer_value_0 i w) ∧
      (∀ k, reserved k = false → k ≠ key →
        lxqt_secret_service_get_value k w' = lxqt_secret_service_get_value k w) := by
  have hk1 : key ≠ "lxqt_wallet_size" := by
    intro e; simp [reserved, e] at hkey
  have hmem : m ∈ (w.keyID.map Prod.fst).toFinset :=
    (lookup_isSome_iff m w.keyID).1 ⟨key, hm⟩
  have hpos : 0 < occupied w := Finset.card_pos.2 ⟨m, hmem⟩
  have hjne : _get_string_value "lxqt_wallet_size" w ≠ -1 := by
    intro e
    simp [_number_of_entries_in_the_wallet, e] at hcount
    omega
  have hr := get_string_value_range "lxqt_wallet_size" w
  have hcount' := hcount
  rw [number_of_entries_eq w hjne] at hcount'
  have hsub : (((w.keyID.map Prod.fst).toFinset.filter (fun x => 0 ≤ x ∧ x < m)).card : Int)
      < occupied w := by
    have h1 : (w.keyID.map Prod.fst).toFinset.filter (fun x => 0 ≤ x ∧ x < m)
        ⊆ (w.keyID.map Prod.fst).toFinset.erase m := by
      intro x hx
      rw [Finset.mem_filter] at hx
      exact Finset.mem_erase.2 ⟨by omega, hx.1⟩
    have h2 := Finset.card_le_card h1
    rw [Finset.card_erase_of_mem hmem] at h2
    unfold occupied at hpos ⊢
    omega
  refine ⟨{ keyValues := clear key (store "lxqt_wallet_size"
               (snprintf_d (wrap32 (_get_string_value "lxqt_wallet_size" w - 1)))
               (store "lxqt_wallet_open" "lxqt_wallet_open" w.keyValues)),
             keyID := clear m w.keyID, faults := [] }, ?_, ?_, ?_, ?_, ?_, ?_⟩
  · intro fuel hfuel
    simp only [lxqt_secret_service_clear_sync, gate_accepted w hacc, Bool.not_true,
      Bool.false_eq_true, if_false]
    rw [clear_scan_finds key _ m
      { keyValues := store "lxqt_wallet_open" "lxqt_wallet_open" w.keyValues,
        keyID := w.keyID, faults := [] } hm (by simpa [INT_MAX] using hmmax)
      (by rw [hcount]; omega) fuel 0 0 (by simpa using hfuel) (le_refl _) (le_refl _) hm0
      (by rw [hcount]; simp only [zero_add]; exact le_of_lt hsub)
      (fun x _ h2 => hlow x h2),
      clear_match_accepted _ _ _ rfl, get_size_after_gate]
  · simp [_get_integer_value_0, lookup_clear_self]
  · have hsize : _get_string_value "lxqt_wallet_size"
        { keyValues := clear key (store "lxqt_wallet_size"
               (snprintf_d (wrap32 (_get_string_value "lxqt_wallet_size" w - 1)))
               (store "lxqt_wallet_open" "lxqt_wallet_open" w.keyValues)),
          keyID := clear m w.keyID, faults := [] }
        = _get_string_value "lxqt_wallet_size" w - 1 := by
      have e0 := hcount'
      have e1 := hr
      simp only [_get_string_value, _get_string_value_0] at e0 e1 ⊢
      rw [lookup_clear_ne (Ne.symm hk1), lookup_store_self, wrap32_of_int (by omega) (by omega)]
      exact atoi_snprintf_d _ (by omega) (by omega)
    rw [number_of_entries_eq _ (by rw [hsize]; omega), hsize, number_of_entries_eq w hjne]
  · simp [lxqt_secret_service_get_value, _get_string_value_0, lookup_clear_self]
  · intro i hi
    simp [_get_integer_value_0, lookup_clear_ne hi]
  · intro k hk hkk
    have h1 : k ≠ "lxqt_wallet_size" := by
      intro e; simp [reserved, e] at hk
    have h2 : k ≠ "lxqt_wallet_open" := by
      intro e; simp [reserved, e] at hk
    simp [lxqt_secret_service_get_value, _get_string_value_0, lookup_clear_ne hkk,
      lookup_store_ne h1, lookup_store_ne h2]

/-- C6, at the wallet with "a" in slot 0 and "b" in slot 1: clearing "b". -/
theorem clear_on_match_witness :
    ∃ w', (∀ fuel, (1 : Int).toNat < fuel →
        lxqt_secret_service_clear_sync fuel "b"
          { keyValues := [("b", "y"), ("a", "x"), ("lxqt_wallet_size", "2")],
            keyID := [(1, "b"), (0, "a")], faults := [] } = some (true, w')) ∧
      _get_integer_value_0 1 w' = none ∧
      _number_of_entries_in_the_wallet w' =
        _number_of_entries_in_the_wallet
          { keyValues := [("b", "y"), ("a", "x"), ("lxqt_wallet_size", "2")],
            keyID := [(1, "b"), (0, "a")], faults := [] } - 1 ∧
      lxqt_secret_service_get_value "b" w' = none ∧
      (∀ i, i ≠ 1 → _get_integer_value_0 i w' =
        _get_integer_value_0 i
          { keyValues := [("b", "y"), ("a", "x"), ("lxqt_wallet_size", "2")],
            keyID := [(1, "b"), (0, "a")], faults := [] }) ∧
      (∀ k, reserved k = false → k ≠ "b" →
        lxqt_secret_service_get_value k w' =
          lxqt_secret_service_get_value k
            { keyValues := [("b", "y"), ("a", "x"), ("lxqt_wallet_size", "2")],
              keyID := [(1, "b"), (0, "a")], faults := [] }) :=
  clear_on_match "b"
    { keyValues := [("b", "y"), ("a", "x"), ("lxqt_wallet_size", "2")],
      keyID := [(1, "b"), (0, "a")], faults := [] } 1 rfl (by decide) (by decide) (by decide)
    (by
      intro i hi
      have h0 : (1 : Int) ≠ i := by omega
      simp only [_get_integer_value_0, lookup, if_neg h0]
      split <;> simp)
    (by decide) (by decide)

/-! ## C10: the scan of `lxqt_secret_get_all_keys` -/

theorem keys_scan_collects (j N : Int) (w : Wallet) (hN : N ≤ 2147483647)
    (hjmax : j ≤ 2147483647) :
    ∀ (d : Nat) (i k : Int) (c : Keys), k + d = N → 0 ≤ k → 0 ≤ i → i ≤ j → c.count = i →
      j - i ≤ (((w.keyID.map Prod.fst).toFinset.filter (fun x => k ≤ x ∧ x < N)).card : Int) →
      ∃ (slots : List Int) (names : List String),
        (slots.length : Int) = j - i ∧ slots.Pairwise (fun a b => a < b) ∧
        (∀ s ∈ slots, k ≤ s) ∧
        List.Forall₂ (fun s e => _get_integer_value_0 s w = some e) slots names ∧
        (∀ x, k ≤ x → x < N → x ∉ slots → _get_integer_value_0 x w ≠ none →
          ∀ s ∈ slots, s < x) ∧
        ∀ fuel, d < fuel →
          keys_scan j w fuel i k c = some { entries := c.entries ++ names, count := j } := by
  intro d
  induction d with
  | zero =>
    intro i k c hk _ _ hij hc hcnt
    have hempty : (w.keyID.map Prod.fst).toFinset.filter (fun x => k ≤ x ∧ x < N) = ∅ := by
      apply Finset.filter_false_of_mem
      intro x _; omega
    rw [hempty] at hcnt
    simp only [Finset.card_empty, Nat.cast_zero] at hcnt
    have hi : i = j := by omega
    refine ⟨[], [], by simp [hi], List.Pairwise.nil, by simp, List.Forall₂.nil, by simp, ?_⟩
    intro fuel hfuel
    obtain ⟨fuel, rfl⟩ := Nat.exists_eq_succ_of_ne_zero (by omega : fuel ≠ 0)
    simp only [keys_scan, hi, lt_irrefl, if_false, List.append_nil]
    rw [← hi, ← hc]
  | succ d ih =>
    intro i k c hk hk0 hi0 hij hc hcnt
    by_cases hi : i = j
    · refine ⟨[], [], by simp [hi], List.Pairwise.nil, by simp, List.Forall₂.nil, by simp, ?_⟩
      intro fuel hfuel
      obtain ⟨fuel, rfl⟩ := Nat.exists_eq_succ_of_ne_zero (by omega : fuel ≠ 0)
      simp only [keys_scan, hi, lt_irrefl, if_false, List.append_nil]
      rw [← hi, ← hc]
    · have hlt : i < j := by omega
      have hkN : k < N := by push_cast at hk; omega
      have hstep := card_slots_between_step (w.keyID.map Prod.fst).toFinset k N hkN
      have hwk : wrap32 (k + 1) = k + 1 := wrap32_of_int (by omega) (by omega)
      cases hl : _get_integer_value_0 k w with
      | none =>
        have hnot : k ∉ (w.keyID.map Prod.fst).toFinset :=
          (lookup_eq_none_iff k w.keyID).1 hl
        rw [if_neg hnot, add_zero] at hstep
        obtain ⟨slots, names, h1, h2, h3, h4, h5, h6⟩ :=
          ih i (k + 1) c (by push_cast at hk ⊢; omega) (by omega) hi0 hij hc
            (by rw [← hstep]; exact hcnt)
        refine ⟨slots, names, h1, h2, fun s hs => by have := h3 s hs; omega, h4, ?_, ?_⟩
        · intro x hx1 hx2 hx3 hx4
          have hxk : x ≠ k := fun e => hx4 (e ▸ hl)
          exact h5 x (by omega) hx2 hx3 hx4
        · intro fuel hfuel
          obtain ⟨fuel, rfl⟩ := Nat.exists_eq_succ_of_ne_zero (by omega : fuel ≠ 0)
          simp only [keys_scan, if_pos hlt, hl, hwk]
          exact h6 fuel (by omega)
      | some e =>
        have hin : k ∈ (w.keyID.map Prod.fst).toFinset :=
          (lookup_isSome_iff k w.keyID).1 ⟨e, hl⟩
        rw [if_pos hin] at hstep
        have hwc : wrap32 (c.count + 1) = i + 1 := by
          rw [hc]; apply wrap32_of_int <;> omega
        obtain ⟨slots, names, h1, h2, h3, h4, h5, h6⟩ :=
          ih (i + 1) (k + 1) { entries := c.entries ++ [e], count := wrap32 (c.count + 1) }
            (by push_cast at hk ⊢; omega) (by omega) (by omega) (by omega) hwc
            (by rw [hstep] at hcnt; push_cast at hcnt; omega)
        refine ⟨k :: slots, e :: names, ?_, ?_, ?_, List.Forall₂.cons hl h4, ?_, ?_⟩
        · simp only [List.length_cons]; push_cast; omega
        · exact List.Pairwise.cons (fun s hs => by have := h3 s hs; omega) h2
        · intro s hs
          rcases List.mem_cons.1 hs with rfl | hs
          · exact le_refl _
          · have := h3 s hs; omega
        · intro x hx1 hx2 hx3 hx4 s hs
          have hxk : x ≠ k := fun e => hx3 (e ▸ List.mem_cons_self _ _)
          rcases List.mem_cons.1 hs with rfl | hs
          · omega
          · exact h5 x (by omega) hx2 (fun hmem => hx3 (List.mem_cons_of_mem _ hmem)) hx4 s hs
        · intro fuel hfuel
          obtain ⟨fuel, rfl⟩ := Nat.exists_eq_succ_of_ne_zero (by omega : fuel ≠ 0)
          simp only [keys_scan, if_pos hlt, hl, hwk]
          rw [h6 fuel (by omega)]
          simp

/-- C10 (amended): when the gate passes, the `malloc` of the result array is granted and the
declared count `j` satisfies 0 <= j <= number of occupied key-index slots (slot numbers
being non-negative `int`s below `N <= INT_MAX`), `lxqt_secret_get_all_keys` exits its loop
within `N + 1` iterations, sets `*count = j` and returns the names stored in the `j`
lowest-numbered occupied slots, in ascending slot order: `slots` is strictly increasing, has
`j` members, `names` are the names stored in them, and every occupied slot outside `slots`
lies above all of them. -/
theorem enumerate_scan (w : Wallet) (N : Int) (malloc : Nat → Bool)
    (hgate : (lxqt_secret_service_wallet_is_open w).1 = true)
    (hmalloc : malloc (malloc_size (lxqt_secret_service_wallet_size w)) = true)
    (hj0 : 0 ≤ lxqt_secret_service_wallet_size w)
    (hj : lxqt_secret_service_wallet_size w ≤ (occupied w : Int))
    (hrange : ∀ i, _get_integer_value_0 i w ≠ none → 0 ≤ i ∧ i < N) (hN : N ≤ INT_MAX) :
    ∃ (slots : List Int) (names : List String),
      (slots.length : Int) = lxqt_secret_service_wallet_size w ∧
      slots.Pairwise (fun a b => a < b) ∧
      List.Forall₂ (fun s e => _get_integer_value_0 s w = some e) slots names ∧
      (∀ x, x ∉ slots → _get_integer_value_0 x w ≠ none → ∀ s ∈ slots, s < x) ∧
      ∀ fuel, N.toNat < fuel →
        ∃ w', lxqt_secret_get_all_keys malloc fuel w
          = some ({ array := some names, count := lxqt_secret_service_wallet_size w }, w') := by
  have hg := gate_passed w hgate
  have hsize : _number_of_entries_in_the_wallet
      { keyValues := store "lxqt_wallet_open" "lxqt_wallet_open" w.keyValues,
        keyID := w.keyID, faults := w.faults.tail }
      = lxqt_secret_service_wallet_size w := by
    simp only [lxqt_secret_service_wallet_size, _number_of_entries_in_the_wallet,
      _get_string_value, _get_string_value_0]
    rw [lookup_store_ne size_ne_open]
  have hjmax : lxqt_secret_service_wallet_size w ≤ 2147483647 := by
    have hr := get_string_value_range "lxqt_wallet_size" w
    simp only [lxqt_secret_service_wallet_size, _number_of_entries_in_the_wallet]
    split <;> omega
  have hall : (w.keyID.map Prod.fst).toFinset.filter (fun x => 0 ≤ x ∧ x < (N.toNat : Int))
      = (w.keyID.map Prod.fst).toFinset := by
    apply Finset.filter_true_of_mem
    intro x hx
    obtain ⟨v, hv⟩ := (lookup_isSome_iff x w.keyID).2 hx
    have := hrange x (by simp [_get_integer_value_0, hv])
    omega
  obtain ⟨slots, names, h1, h2, h3, h4, h5, h6⟩ :=
    keys_scan_collects (lxqt_secret_service_wallet_size w) (N.toNat : Int)
      { keyValues := store "lxqt_wallet_open" "lxqt_wallet_open" w.keyValues,
        keyID := w.keyID, faults := w.faults.tail }
      (by simp only [INT_MAX] at hN; omega) hjmax N.toNat 0 0 { entries := [], count := 0 }
      (by simp) (le_refl _) (le_refl _) hj0 rfl
      (by
        show lxqt_secret_service_wallet_size w - 0 ≤
          (((w.keyID.map Prod.fst).toFinset.filter
            (fun x => 0 ≤ x ∧ x < (N.toNat : Int))).card : Int)
        rw [hall, sub_zero]; exact hj)
  refine ⟨slots, names, by simpa using h1, h2, h4, ?_, ?_⟩
  · intro x hx hocc s hs
    have hxr := hrange x hocc
    exact h5 x hxr.1 (by omega) hx hocc s hs
  · intro fuel hfuel
    refine ⟨{ keyValues := store "lxqt_wallet_open" "lxqt_wallet_open" w.keyValues,
              keyID := w.keyID, faults := w.faults.tail }, ?_⟩
    simp only [lxqt_secret_get_all_keys, hg, if_true, hsize, hmalloc]
    rw [h6 fuel hfuel]
    simp

/-- C10, at the wallet with slots 0 and 2 occupied and count 2, with an allocator that grants
requests of up to 1024 bytes. -/
theorem enumerate_scan_witness :
    ∃ (slots : List Int) (names : List String),
      (slots.length : Int) = lxqt_secret_service_wallet_size
        { keyValues := [("lxqt_wallet_size", "2")], keyID := [(2, "c"), (0, "a")],
          faults := [] } ∧
      slots.Pairwise (fun a b => a < b) ∧
      List.Forall₂ (fun s e => _get_integer_value_0 s
        { keyValues := [("lxqt_wallet_size", "2")], keyID := [(2, "c"), (0, "a")],
          faults := [] } = some e) slots names ∧
      (∀ x, x ∉ slots → _get_integer_value_0 x
        { keyValues := [("lxqt_wallet_size", "2")], keyID := [(2, "c"), (0, "a")],
          faults := [] } ≠ none → ∀ s ∈ slots, s < x) ∧
      ∀ fuel, (3 : Int).toNat < fuel →
        ∃ w', lxqt_secret_get_all_keys (fun n => decide (n ≤ 1024)) fuel
          { keyValues := [("lxqt_wallet_size", "2")], keyID := [(2, "c"), (0, "a")],
            faults := [] }
          = some ({ array := some names, count := (lxqt_secret_service_wallet_size
              { keyValues := [("lxqt_wallet_size", "2")], keyID := [(2, "c"), (0, "a")],
                faults := [] }) }, w') :=
  enumerate_scan
    { keyValues := [("lxqt_wallet_size", "2")], keyID := [(2, "c"), (0, "a")], faults := [] }
    3 (fun n => decide (n ≤ 1024)) (by decide) (by decide) (by decide) (by decide)
    (by
      intro i hi
      simp only [_get_integer_value_0, lookup] at hi
      split at hi
      · omega
      · split at hi
        · omega
        · exact absurd rfl hi)
    (by decide)

/-- C10 as stated fails when the `malloc` of the result array is refused: in the wallet with
slots 0 and 2 occupied and count 2 the gate passes and the count satisfies 0 <= 2 <= 2
occupied slots, yet with an allocator that grants no request `lxqt_secret_get_all_keys`
skips its loop and returns NULL with `*count = 0`, not 2, whatever number of iterations the
loop is allowed. -/
theorem enumerate_without_memory :
    (lxqt_secret_service_wallet_is_open
      { keyValues := [("lxqt_wallet_size", "2")], keyID := [(2, "c"), (0, "a")],
        faults := [] }).1 = true ∧
    lxqt_secret_service_wallet_size
      { keyValues := [("lxqt_wallet_size", "2")], keyID := [(2, "c"), (0, "a")],
        faults := [] } = 2 ∧
    occupied
      { keyValues := [("lxqt_wallet_size", "2")], keyID := [(2, "c"), (0, "a")],
        faults := [] } = 2 ∧
    ∀ fuel, lxqt_secret_get_all_keys (fun _ => false) fuel
      { keyValues := [("lxqt_wallet_size", "2")], keyID := [(2, "c"), (0, "a")],
        faults := [] }
      = some ({ array := none, count := 0 },
          { keyValues := [("lxqt_wallet_open", "lxqt_wallet_open"), ("lxqt_wallet_size", "2")],
            keyID := [(2, "c"), (0, "a")], faults := [] }) :=
  ⟨by decide, by decide, by decide, fun _ => rfl⟩

/-! ## C5: enumeration after a sequence of stores -/

theorem keys_scan_entries (j : Int) (w : Wallet) :
    ∀ (fuel : Nat) (i k : Int) (c r : Keys), keys_scan j w fuel i k c = some r →
      ∀ e ∈ r.entries, e ∈ c.entries ∨ ∃ s, _get_integer_value_0 s w = some e := by
  intro fuel
  induction fuel with
  | zero => intro i k c r h; simp [keys_scan] at h
  | succ fuel ih =>
    intro i k c r h e he
    simp only [keys_scan] at h
    by_cases hij : i < j
    · rw [if_pos hij] at h
      cases hl : _get_integer_value_0 k w with
      | none => rw [hl] at h; exact ih _ _ _ _ h e he
      | some n =>
        rw [hl] at h
        rcases ih _ _ _ _ h e he with h1 | h1
        · rcases List.mem_append.1 h1 with h2 | h2
          · exact Or.inl h2
          · rw [List.mem_singleton] at h2
            exact Or.inr ⟨k, h2 ▸ hl⟩
        · exact Or.inr h1
    · rw [if_neg hij] at h
      cases h
      exact Or.inl he

theorem get_all_keys_entries (malloc : Nat → Bool) (fuel : Nat) (w : Wallet)
    (r : AllKeys × Wallet) (h : lxqt_secret_get_all_keys malloc fuel w = some r) :
    ∀ e ∈ r.1.array.getD [], ∃ s, _get_integer_value_0 s w = some e := by
  intro e he
  unfold lxqt_secret_get_all_keys at h
  by_cases hg : (lxqt_secret_service_wallet_is_open w).1 = true
  · simp only [hg, if_true] at h
    by_cases hm : malloc (malloc_size
        (_number_of_entries_in_the_wallet (lxqt_secret_service_wallet_is_open w).2)) = true
    · simp only [hm, if_true, Option.map_eq_some'] at h
      obtain ⟨c, hc, hcr⟩ := h
      rw [← hcr] at he
      rcases keys_scan_entries _ _ fuel _ _ _ c hc e he with h1 | ⟨s, hs⟩
      · simp at h1
      · refine ⟨s, ?_⟩
        rw [gate_passed w hg] at hs
        exact hs
    · simp only [hm, Bool.false_eq_true, if_false, Option.some.injEq] at h
      rw [← h] at he
      simp at he
  · simp only [hg, Bool.false_eq_true, if_false, Option.some.injEq] at h
    rw [← h] at he
    simp at he

/-- C5 (code defect): storing the two distinct user keys "-1" and "b" into a never-written
wallet leaves the count at 2 but a single occupied slot, slot 0, holding "b": the second
store takes slot 0 for free because `atoi("-1")` is -1.  However long its loop runs and
whatever the allocator grants, `lxqt_secret_get_all_keys` then never returns an enumeration
that contains "-1"; when the 16 bytes of the array are granted it returns nothing at all
within fifty iterations, and when they are not it returns NULL with `*count = 0`. -/
theorem enumeration_loses_key_minus_one (malloc : Nat → Bool) (fuel : Nat) :
    store_all [("-1", "x"), ("b", "y")] emptyWallet
      = { keyValues := [("b", "y"), ("lxqt_wallet_size", "2"),
            ("lxqt_wallet_open", "lxqt_wallet_open")],
          keyID := [(0, "b")], faults := [] } ∧
    lxqt_secret_get_all_keys malloc 50 (store_all [("-1", "x"), ("b", "y")] emptyWallet)
      = (if malloc 16 then none
         else some ({ array := none, count := 0 },
           { keyValues := [("lxqt_wallet_open", "lxqt_wallet_open"), ("b", "y"),
               ("lxqt_wallet_size", "2")],
             keyID := [(0, "b")], faults := [] })) ∧
    ((lxqt_secret_get_all_keys malloc fuel (store_all [("-1", "x"), ("b", "y")] emptyWallet)).map
      (fun r => (r.1.array.getD []).contains "-1")).getD false = false := by
  have hst : store_all [("-1", "x"), ("b", "y")] emptyWallet
      = { keyValues := [("b", "y"), ("lxqt_wallet_size", "2"),
            ("lxqt_wallet_open", "lxqt_wallet_open")],
          keyID := [(0, "b")], faults := [] } := by decide
  refine ⟨hst, ?_, ?_⟩
  · rw [hst]
    have hgate : lxqt_secret_service_wallet_is_open
        { keyValues := [("b", "y"), ("lxqt_wallet_size", "2"),
            ("lxqt_wallet_open", "lxqt_wallet_open")],
          keyID := [(0, "b")], faults := [] }
        = (true, { keyValues := [("lxqt_wallet_open", "lxqt_wallet_open"), ("b", "y"),
                     ("lxqt_wallet_size", "2")],
                   keyID := [(0, "b")], faults := [] }) := by decide
    have hj : _number_of_entries_in_the_wallet
        { keyValues := [("lxqt_wallet_open", "lxqt_wallet_open"), ("b", "y"),
            ("lxqt_wallet_size", "2")],
          keyID := [(0, "b")], faults := [] } = 2 := by decide
    have hsz : malloc_size 2 = 16 := by decide
    have hscan : keys_scan 2
        { keyValues := [("lxqt_wallet_open", "lxqt_wallet_open"), ("b", "y"),
            ("lxqt_wallet_size", "2")],
          keyID := [(0, "b")], faults := [] } 50 0 0 { entries := [], count := 0 }
        = none := by decide
    simp only [lxqt_secret_get_all_keys, hgate, if_true, hj, hsz, hscan, Option.map_none']
  · rw [hst]
    cases hr : lxqt_secret_get_all_keys malloc fuel
        { keyValues := [("b", "y"), ("lxqt_wallet_size", "2"),
            ("lxqt_wallet_open", "lxqt_wallet_open")],
          keyID := [(0, "b")], faults := [] } with
    | none => rfl
    | some r =>
      simp only [Option.map_some', Option.getD_some]
      rw [← Bool.not_eq_true]
      intro hmem
      replace hmem : "-1" ∈ r.1.array.getD [] := by simpa using hmem
      obtain ⟨s, hs⟩ := get_all_keys_entries malloc fuel _ r hr "-1" hmem
      simp only [_get_integer_value_0, lookup] at hs
      split at hs
      · exact absurd hs (by decide)
      · cases hs

/-! ## C8: a value write that fails after the slot claim -/

/-- C8 (code defect): in the wallet with "a" in slot 0 and count 1, let the gate write, the
count write and the slot write be accepted and the write of "b" -> "y" be refused.  The
store returns FALSE and slot 1 is cleared again, but the stored count is left at 2: it was
written before the slot claim and is never rolled back. -/
theorem failed_store_leaves_count_incremented :
    lxqt_secret_service_wallet_size
      { keyValues := [("a", "x"), ("lxqt_wallet_size", "1")], keyID := [(0, "a")],
        faults := [true, true, true, false] } = 1 ∧
    lxqt_secret_service_password_store_sync "b" "y"
      { keyValues := [("a", "x"), ("lxqt_wallet_size", "1")], keyID := [(0, "a")],
        faults := [true, true, true, false] }
      = (false,
          { keyValues := [("lxqt_wallet_size", "2"), ("lxqt_wallet_open", "lxqt_wallet_open"),
              ("a", "x")],
            keyID := [(0, "a")], faults := [] }) ∧
    lxqt_secret_service_wallet_size
      { keyValues := [("lxqt_wallet_size", "2"), ("lxqt_wallet_open", "lxqt_wallet_open"),
          ("a", "x")],
        keyID := [(0, "a")], faults := [] } = 2 := by
  decide

/-! ## C9: contiguity of the occupied slots -/

theorem getElem?_concat (ks : List String) (key : String) (n : Nat) :
    (ks ++ [key])[n]? =
      if n < ks.length then ks[n]? else if n = ks.length then some key else none := by
  rw [List.getElem?_append]
  split
  · rfl
  · split
    · next h => simp [h]
    · next h1 h2 =>
      have : n - ks.length ≠ 0 := by omega
      obtain ⟨m, hm⟩ := Nat.exists_eq_succ_of_ne_zero this
      rw [hm]; rfl

theorem snprintf_d_one : snprintf_d 1 = "1" := by decide

theorem storedInOrder_store (key value : String) (ks : List String) (w : Wallet)
    (hinv : storedInOrder ks w) (hkey : key ≠ "lxqt_wallet_size") (hatoi : atoi key ≠ -1)
    (hlen : (ks.length : Int) < 2147483647) :
    storedInOrder (ks ++ [key]) (lxqt_secret_service_password_store_sync key value w).2 := by
  obtain ⟨hacc, hnames, hsize, hslots⟩ := hinv
  have hnames' : ∀ k ∈ ks ++ [key], atoi k ≠ -1 := by
    intro k hk
    rcases List.mem_append.1 hk with h | h
    · exact hnames k h
    · rw [List.mem_singleton.1 h]; exact hatoi
  have hslots' : ∀ (id' : List (Int × String)),
      (∀ i : Int, lookup i id' = if i = (ks.length : Int) then some key else lookup i w.keyID) →
      ∀ i : Int, lookup i id' = if 0 ≤ i then (ks ++ [key])[i.toNat]? else none := by
    intro id' hid i
    have hs := hslots i
    simp only [_get_integer_value_0] at hs
    rw [hid i, getElem?_concat]
    by_cases hi : i = (ks.length : Int)
    · subst hi
      simp
    · rw [if_neg hi, hs]
      by_cases hi0 : 0 ≤ i
      · simp only [if_pos hi0]
        by_cases hlt : i.toNat < ks.length
        · rw [if_pos hlt]
        · rw [if_neg hlt, if_neg (by omega), List.getElem?_eq_none (by omega)]
      · simp only [if_neg hi0]
  by_cases hks : ks = []
  · subst hks
    have hj : _get_string_value "lxqt_wallet_size" w = -1 := by
      simp only [_get_string_value]
      rw [hsize]; rfl
    simp only [lxqt_secret_service_password_store_sync, gate_accepted w hacc,
      get_size_after_gate, hj, set_string_accepted, set_integer_accepted, Bool.not_true,
      Bool.false_eq_true, if_false, if_true]
    refine ⟨rfl, hnames', ?_, ?_⟩
    · simp [_get_string_value_0, lookup_store_self, snprintf_d_one]
    · intro i
      simp only [_get_integer_value_0]
      apply hslots'
      intro i
      by_cases hi : i = 0
      · subst hi; simp [lookup_store_self]
      · rw [lookup_store_ne hi]; simp [hi]
  · have hpos : 0 < ks.length := List.length_pos.2 hks
    have hsz : _get_string_value "lxqt_wallet_size" w = (ks.length : Int) := by
      simp only [_get_string_value]
      rw [hsize, if_neg hks]
      exact atoi_snprintf_d _ (by omega) (by omega)
    have hw : wrap32 ((ks.length : Int) + 1) = (ks.length : Int) + 1 :=
      wrap32_of_int (by omega) (by omega)
    have hjne : ¬ ((ks.length : Int) = -1) := by omega
    simp only [lxqt_secret_service_password_store_sync, gate_accepted w hacc,
      get_size_after_gate, hsz, hjne, set_string_accepted, Bool.not_true,
      Bool.false_eq_true, if_false, hw]
    rw [store_scan_free key value _ 0 _ (ks.length : Int) rfl (by omega) (by omega)]
    · refine ⟨rfl, hnames', ?_, ?_⟩
      · simp only [_get_string_value_0]
        rw [lookup_store_ne (Ne.symm hkey), lookup_store_self, if_neg (by simp)]
        simp
      · intro i
        simp only [_get_integer_value_0]
        apply hslots'
        intro i
        by_cases hi : i = (ks.length : Int)
        · subst hi; simp [lookup_store_self]
        · rw [lookup_store_ne hi, if_neg hi]
    · intro x hx0 hxlt
      have hs := hslots x
      simp only [_get_integer_value, _get_integer_value_0] at hs ⊢
      rw [hs, if_pos hx0]
      have hlt : x.toNat < ks.length := by omega
      rw [List.getElem?_eq_getElem hlt]
      exact hnames _ (List.getElem_mem _)
    · have hs := hslots (ks.length : Int)
      simp only [_get_integer_value, _get_integer_value_0] at hs ⊢
      rw [hs]
      simp

theorem storedInOrder_store_all :
    ∀ (ps : List (String × String)) (ks : List String) (w : Wallet), storedInOrder ks w →
      (∀ p ∈ ps, p.1 ≠ "lxqt_wallet_size" ∧ atoi p.1 ≠ -1) →
      ((ks.length : Int) + ps.length ≤ 2147483647) →
      storedInOrder (ks ++ ps.map Prod.fst) (store_all ps w) := by
  intro ps
  induction ps with
  | nil => intro ks w h _ _; simpa [store_all] using h
  | cons p rest ih =>
    intro ks w h hkeys hlen
    simp only [List.length_cons] at hlen
    push_cast at hlen
    have hp := hkeys p (List.mem_cons_self _ _)
    have hstep := storedInOrder_store p.1 p.2 ks w h hp.1 hp.2 (by omega)
    have := ih (ks ++ [p.1]) _ hstep (fun q hq => hkeys q (List.mem_cons_of_mem _ hq))
      (by simp only [List.length_append, List.length_singleton]; push_cast; omega)
    simpa [store_all] using this

theorem storedInOrder_empty : storedInOrder [] emptyWallet := by
  refine ⟨rfl, by simp, rfl, ?_⟩
  intro i
  simp [_get_integer_value_0, emptyWallet, lookup]

/-- C9 (amended): starting from a never-written wallet on a backend that accepts every call,
after any sequence of store calls (no clear) whose keys are not "lxqt_wallet_size" and do not
have `atoi` value -1, the stored count is the number of calls, the occupied key-index slots
are exactly the range `[0, size)`, and slot `n` holds the key of call `n`. -/
theorem stores_fill_contiguous_slots (ps : List (String × String))
    (hkeys : ∀ p ∈ ps, p.1 ≠ "lxqt_wallet_size" ∧ atoi p.1 ≠ -1)
    (hlen : (ps.length : Int) ≤ INT_MAX) :
    lxqt_secret_service_wallet_size (store_all ps emptyWallet) = (ps.length : Int) ∧
    (∀ i : Int, _get_integer_value_0 i (store_all ps emptyWallet) ≠ none ↔
      0 ≤ i ∧ i < lxqt_secret_service_wallet_size (store_all ps emptyWallet)) ∧
    (∀ i : Int, _get_integer_value_0 i (store_all ps emptyWallet)
      = if 0 ≤ i then (ps.map Prod.fst)[i.toNat]? else none) := by
  have h := storedInOrder_store_all ps [] emptyWallet storedInOrder_empty hkeys
    (by simp only [INT_MAX] at hlen; simpa using hlen)
  rw [List.nil_append] at h
  obtain ⟨_, _, hsize, hslots⟩ := h
  simp only [INT_MAX] at hlen
  have hcount : lxqt_secret_service_wallet_size (store_all ps emptyWallet)
      = (ps.length : Int) := by
    simp only [lxqt_secret_service_wallet_size, _number_of_entries_in_the_wallet,
      _get_string_value, hsize]
    by_cases hps : ps = []
    · subst hps; simp
    · have hne : ¬ (ps.map Prod.fst = []) := by simpa using hps
      rw [if_neg hne]
      simp only [List.length_map]
      rw [atoi_snprintf_d _ (by omega) (by omega)]
      rw [if_neg (by omega)]
  refine ⟨hcount, ?_, hslots⟩
  intro i
  rw [hslots i, hcount]
  by_cases hi : 0 ≤ i
  · rw [if_pos hi]
    constructor
    · intro hne
      have hlt : i.toNat < (ps.map Prod.fst).length := by
        by_contra hnlt
        exact hne (List.getElem?_eq_none (by omega))
      rw [List.length_map] at hlt
      exact ⟨hi, by omega⟩
    · rintro ⟨_, hlt⟩
      have hlt' : i.toNat < (ps.map Prod.fst).length := by
        rw [List.length_map]; omega
      rw [List.getElem?_eq_getElem hlt']
      simp
  · rw [if_neg hi]
    simp [hi]

/-- C9, for the two stores of "a" and "b". -/
theorem stores_fill_contiguous_slots_witness :
    lxqt_secret_service_wallet_size (store_all [("a", "x"), ("b", "y")] emptyWallet)
      = (([("a", "x"), ("b", "y")] : List (String × String)).length : Int) ∧
    (∀ i : Int, _get_integer_value_0 i (store_all [("a", "x"), ("b", "y")] emptyWallet) ≠ none ↔
      0 ≤ i ∧
        i < lxqt_secret_service_wallet_size (store_all [("a", "x"), ("b", "y")] emptyWallet)) ∧
    (∀ i : Int, _get_integer_value_0 i (store_all [("a", "x"), ("b", "y")] emptyWallet)
      = if 0 ≤ i then (([("a", "x"), ("b", "y")] : List (String × String)).map Prod.fst)[i.toNat]?
        else none) :=
  stores_fill_contiguous_slots [("a", "x"), ("b", "y")] (by decide) (by decide)

/-- C9 as stated fails: after storing "A" and "B" into a never-written wallet and clearing
"A", the count is 1 and the only occupied slot is slot 1; slot 0, inside `[0, size)`, is
absent. -/
theorem contiguity_broken_by_clear :
    (lxqt_secret_service_clear_sync 1 "A"
        (store_all [("A", "a"), ("B", "b")] emptyWallet)).map
      (fun r => (r.1, lxqt_secret_service_wallet_size r.2, _get_integer_value_0 0 r.2,
        _get_integer_value_0 1 r.2))
      = some (true, 1, none, some "B") := by
  decide

/-! ## C11: the store / store / clear / store scenario -/

/-- C11: starting from a never-written wallet on a backend that accepts every call, after
`store("user","alice")` the count is 1 and slot 0 holds "user"; after
`store("pass","secret")` the count is 2 and slot 1 holds "pass"; after `clear("user")` (one
loop iteration) the count is 1, slot 0 is absent and slot 1 holds "pass"; after
`store("token","xyz")` the count is 2, slot 0 holds "token" and slot 1 still holds "pass". -/
theorem scenario_user_pass_token :
    (lxqt_secret_service_wallet_size (store_all [("user", "alice")] emptyWallet) = 1 ∧
      _get_integer_value_0 0 (store_all [("user", "alice")] emptyWallet) = some "user") ∧
    (lxqt_secret_service_wallet_size
        (store_all [("user", "alice"), ("pass", "secret")] emptyWallet) = 2 ∧
      _get_integer_value_0 1
        (store_all [("user", "alice"), ("pass", "secret")] emptyWallet) = some "pass") ∧
    (∃ w3, lxqt_secret_service_clear_sync 1 "user"
        (store_all [("user", "alice"), ("pass", "secret")] emptyWallet) = some (true, w3) ∧
      (lxqt_secret_service_wallet_size w3 = 1 ∧ _get_integer_value_0 0 w3 = none ∧
        _get_integer_value_0 1 w3 = some "pass") ∧
      (lxqt_secret_service_wallet_size
          (lxqt_secret_service_password_store_sync "token" "xyz" w3).2 = 2 ∧
        _get_integer_value_0 0 (lxqt_secret_service_password_store_sync "token" "xyz" w3).2
          = some "token" ∧
        _get_integer_value_0 1 (lxqt_secret_service_password_store_sync "token" "xyz" w3).2
          = some "pass")) := by
  refine ⟨by decide, by decide,
    { keyValues := [("lxqt_wallet_size", "1"), ("lxqt_wallet_open", "lxqt_wallet_open"),
        ("pass", "secret")],
      keyID := [(1, "pass")], faults := [] }, by decide, by decide, by decide⟩

/-! ## C12: reading a never-written wallet -/

/-- C12: on a wallet without a size entry whose gate passes,
`lxqt_secret_service_wallet_size` returns 0 and `lxqt_secret_get_all_keys` leaves its loop at
once (any positive number of iterations suffices) with no entry and `*count = 0`, whatever
the allocator does with the request of 0 bytes: the returned pointer is the empty array when
`malloc(0)` hands back a pointer and NULL when it does not. -/
theorem empty_wallet_reads (w : Wallet) (malloc : Nat → Bool)
    (hsize : _get_string_value_0 "lxqt_wallet_size" w = none)
    (hgate : (lxqt_secret_service_wallet_is_open w).1 = true) :
    lxqt_secret_service_wallet_size w = 0 ∧
    ∀ fuel, 0 < fuel →
      lxqt_secret_get_all_keys malloc fuel w
        = some ({ array := if malloc 0 then some [] else none, count := 0 },
            (lxqt_secret_service_wallet_is_open w).2) := by
  have h0 : lxqt_secret_service_wallet_size w = 0 := by
    simp [lxqt_secret_service_wallet_size, _number_of_entries_in_the_wallet,
      _get_string_value, hsize]
  refine ⟨h0, ?_⟩
  intro fuel hfuel
  obtain ⟨fuel, rfl⟩ := Nat.exists_eq_succ_of_ne_zero (by omega : fuel ≠ 0)
  have hg := gate_passed w hgate
  have hj : _number_of_entries_in_the_wallet
      { keyValues := store "lxqt_wallet_open" "lxqt_wallet_open" w.keyValues,
        keyID := w.keyID, faults := w.faults.tail } = 0 := by
    simp only [_get_string_value_0] at hsize
    simp only [_number_of_entries_in_the_wallet, _get_string_value, _get_string_value_0]
    rw [lookup_store_ne size_ne_open, hsize]
    rfl
  have hsz : malloc_size 0 = 0 := by decide
  simp only [lxqt_secret_get_all_keys, hg, if_true, hj, hsz, keys_scan, lt_irrefl, if_false,
    Option.map_some']
  cases malloc 0 <;> rfl

/-- C12, at the never-written wallet, with an allocator that grants every request and with
one that grants none. -/
theorem empty_wallet_reads_witness :
    (lxqt_secret_service_wallet_size emptyWallet = 0 ∧
      ∀ fuel, 0 < fuel →
        lxqt_secret_get_all_keys (fun _ => true) fuel emptyWallet
          = some ({ array := some [], count := 0 },
              (lxqt_secret_service_wallet_is_open emptyWallet).2)) ∧
    (lxqt_secret_service_wallet_size emptyWallet = 0 ∧
      ∀ fuel, 0 < fuel →
        lxqt_secret_get_all_keys (fun _ => false) fuel emptyWallet
          = some ({ array := none, count := 0 },
              (lxqt_secret_service_wallet_is_open emptyWallet).2)) :=
  ⟨empty_wallet_reads emptyWallet (fun _ => true) rfl (by decide),
    empty_wallet_reads emptyWallet (fun _ => false) rfl (by decide)⟩

/-! ## C13: the gate is a probe -/

/-- C13: `lxqt_secret_service_wallet_is_open` returns true exactly when its backend write is
accepted; it leaves the key index and the stored count alone, leaves every value-store
entry other than "lxqt_wallet_open" alone, and sets that entry to "lxqt_wallet_open" when the
write is accepted (and leaves it alone otherwise). -/
theorem gate_is_a_probe (w : Wallet) (k : String) (hk : k ≠ "lxqt_wallet_open") :
    (lxqt_secret_service_wallet_is_open w).1 = accepts w ∧
    (lxqt_secret_service_wallet_is_open w).2.keyID = w.keyID ∧
    lxqt_secret_service_wallet_size (lxqt_secret_service_wallet_is_open w).2
      = lxqt_secret_service_wallet_size w ∧
    lxqt_secret_service_get_value k (lxqt_secret_service_wallet_is_open w).2
      = lxqt_secret_service_get_value k w ∧
    lxqt_secret_service_get_value "lxqt_wallet_open" (lxqt_secret_service_wallet_is_open w).2
      = (if accepts w then some "lxqt_wallet_open"
          else lxqt_secret_service_get_value "lxqt_wallet_open" w) := by
  unfold lxqt_secret_service_wallet_is_open _set_string_value
  by_cases ha : accepts w = true
  · simp only [ha, if_true, lxqt_secret_service_wallet_size,
      _number_of_entries_in_the_wallet, _get_string_value, lxqt_secret_service_get_value,
      _get_string_value_0]
    rw [lookup_store_ne size_ne_open, lookup_store_ne hk, lookup_store_self]
    refine ⟨?_, ?_, ?_, ?_, ?_⟩ <;> first | rfl | trivial
  · have ha' : accepts w = false := by simpa using ha
    simp only [ha', Bool.false_eq_true, if_false, lxqt_secret_service_wallet_size,
      _number_of_entries_in_the_wallet, _get_string_value, lxqt_secret_service_get_value,
      _get_string_value_0]
    refine ⟨?_, ?_, ?_, ?_, ?_⟩ <;> first | rfl | trivial

/-- C13, at the wallet holding "a" in slot 0, for the entry "a", with the write accepted. -/
theorem gate_is_a_probe_witness :
    (lxqt_secret_service_wallet_is_open
        { keyValues := [("a", "x"), ("lxqt_wallet_size", "1")], keyID := [(0, "a")],
          faults := [] }).1
      = accepts
          { keyValues := [("a", "x"), ("lxqt_wallet_size", "1")], keyID := [(0, "a")],
            faults := [] } ∧
    (lxqt_secret_service_wallet_is_open
        { keyValues := [("a", "x"), ("lxqt_wallet_size", "1")], keyID := [(0, "a")],
          faults := [] }).2.keyID = [(0, "a")] ∧
    lxqt_secret_service_wallet_size (lxqt_secret_service_wallet_is_open
        { keyValues := [("a", "x"), ("lxqt_wallet_size", "1")], keyID := [(0, "a")],
          faults := [] }).2
      = lxqt_secret_service_wallet_size
          { keyValues := [("a", "x"), ("lxqt_wallet_size", "1")], keyID := [(0, "a")],
            faults := [] } ∧
    lxqt_secret_service_get_value "a" (lxqt_secret_service_wallet_is_open
        { keyValues := [("a", "x"), ("lxqt_wallet_size", "1")], keyID := [(0, "a")],
          faults := [] }).2
      = lxqt_secret_service_get_value "a"
          { keyValues := [("a", "x"), ("lxqt_wallet_size", "1")], keyID := [(0, "a")],
            faults := [] } ∧
    lxqt_secret_service_get_value "lxqt_wallet_open" (lxqt_secret_service_wallet_is_open
        { keyValues := [("a", "x"), ("lxqt_wallet_size", "1")], keyID := [(0, "a")],
          faults := [] }).2
      = (if accepts
            { keyValues := [("a", "x"), ("lxqt_wallet_size", "1")], keyID := [(0, "a")],
              faults := [] } then some "lxqt_wallet_open"
          else lxqt_secret_service_get_value "lxqt_wallet_open"
            { keyValues := [("a", "x"), ("lxqt_wallet_size", "1")], keyID := [(0, "a")],
              faults := [] }) :=
  gate_is_a_probe
    { keyValues := [("a", "x"), ("lxqt_wallet_size", "1")], keyID := [(0, "a")], faults := [] }
    "a" (by decide)

/-! ## C19: a successful store can be read back -/

theorem store_claim_true (key value : String) (i : Int) (w w' : Wallet)
    (h : store_claim key value i w = (true, w')) :
    lookup key w'.keyValues = some value := by
  unfold store_claim _set_integer_value at h
  by_cases ha : accepts w = true
  · simp only [ha, if_true] at h
    unfold _set_string_value at h
    split at h
    · simp only [if_true, Prod.mk.injEq, true_and] at h
      rw [← h]
      exact lookup_store_self _ _ _
    · simp at h
  · simp [ha] at h

theorem store_scan_value (key value : String) :
    ∀ (n : Nat) (i : Int) (w w' : Wallet), store_scan key value n i w = (true, w') →
      lookup key w'.keyValues = some value := by
  intro n
  induction n with
  | zero => intro i w w' h; simp [store_scan] at h
  | succ n ih =>
    intro i w w' h
    simp only [store_scan] at h
    split at h
    · exact store_claim_true key value i w w' h
    · exact ih _ _ _ h

/-- C19: whatever the wallet state and whatever the backend refuses, when
`lxqt_secret_service_password_store_sync key value` returns TRUE,
`lxqt_secret_service_get_value key` called right afterwards returns `value`. -/
theorem store_then_get_value (key value : String) (w : Wallet)
    (h : (lxqt_secret_service_password_store_sync key value w).1 = true) :
    lxqt_secret_service_get_value key (lxqt_secret_service_password_store_sync key value w).2
      = some value := by
  have hpair : lxqt_secret_service_password_store_sync key value w
      = (true, (lxqt_secret_service_password_store_sync key value w).2) := by
    rw [← h]
  generalize (lxqt_secret_service_password_store_sync key value w).2 = w' at hpair ⊢
  unfold lxqt_secret_service_password_store_sync at hpair
  simp only at hpair
  split at hpair
  · simp at hpair
  · split at hpair
    · simp at hpair
    · exact store_scan_value key value _ _ _ _ hpair

/-- C19, at the wallet holding "a" in slot 0, storing "b" with value "y". -/
theorem store_then_get_value_witness :
    lxqt_secret_service_get_value "b"
      (lxqt_secret_service_password_store_sync "b" "y"
        { keyValues := [("a", "x"), ("lxqt_wallet_size", "1")], keyID := [(0, "a")],
          faults := [] }).2 = some "y" :=
  store_then_get_value "b" "y"
    { keyValues := [("a", "x"), ("lxqt_wallet_size", "1")], keyID := [(0, "a")], faults := [] }
    (by decide)

/-! ## C14: the order of the backend calls of a clear -/

theorem clear_match_script (key : String) (m : Int) (w : Wallet) :
    clear_match key m w =
      { keyValues :=
          (if accepted 2 w then clear key else id)
            ((if accepted 1 w then
                store "lxqt_wallet_size"
                  (snprintf_d (wrap32 (_get_string_value "lxqt_wallet_size" w - 1)))
              else id) w.keyValues),
        keyID := if accepted 0 w then clear m w.keyID else w.keyID,
        faults := w.faults.drop 3 } := by
  obtain ⟨kv, ids, fl⟩ := w
  rcases fl with _ | ⟨a, _ | ⟨b, _ | ⟨c, rest⟩⟩⟩ <;>
    (try cases a) <;> (try cases b) <;> (try cases c) <;>
    simp [clear_match, _clear_integer_value, _set_string_value, _clear_string_value, accepts,
      accepted, _get_string_value, _get_string_value_0]

/-- C14: script entry 0 of `Wallet.faults` decides the gate write, entry 1 the next mutating
call, and so on.  In every `lxqt_secret_service_clear_sync` call that finds the key (returns
TRUE), after the gate write exactly three mutating calls are made: entry 1 decides whether
the matching slot `m` is cleared, entry 2 whether the decremented count (`e - 1` in `int`
arithmetic, `e` the stored count) is written, entry 3 whether the value entry of the key is
cleared; so the value entry is cleared only after the slot clear and the count write. -/
theorem clear_call_order (fuel : Nat) (key : String) (w w' : Wallet)
    (h : lxqt_secret_service_clear_sync fuel key w = some (true, w')) :
    ∃ m, _get_integer_value_0 m w = some key ∧
      w'.keyID = (if accepted 1 w then clear m w.keyID else w.keyID) ∧
      w'.keyValues =
        (if accepted 3 w then clear key else id)
          ((if accepted 2 w then
              store "lxqt_wallet_size"
                (snprintf_d (wrap32 (_get_string_value "lxqt_wallet_size" w - 1)))
            else id) (store "lxqt_wallet_open" "lxqt_wallet_open" w.keyValues)) ∧
      w'.faults = w.faults.drop 4 := by
  unfold lxqt_secret_service_clear_sync at h
  simp only at h
  by_cases hg : (lxqt_secret_service_wallet_is_open w).1 = true
  · simp only [hg, Bool.not_true, Bool.false_eq_true, if_false] at h
    obtain ⟨m, hm, hw⟩ := clear_scan_true key _ fuel _ _ _ _ h
    rw [gate_passed w hg] at hm hw
    refine ⟨m, hm, ?_⟩
    rw [hw, clear_match_script]
    have hsize : _get_string_value "lxqt_wallet_size"
        { keyValues := store "lxqt_wallet_open" "lxqt_wallet_open" w.keyValues,
          keyID := w.keyID, faults := w.faults.tail }
        = _get_string_value "lxqt_wallet_size" w := by
      simp only [_get_string_value, _get_string_value_0]
      rw [lookup_store_ne size_ne_open]
    have hacc : ∀ n, accepted n
        { keyValues := store "lxqt_wallet_open" "lxqt_wallet_open" w.keyValues,
          keyID := w.keyID, faults := w.faults.tail } = accepted (n + 1) w := by
      intro n
      simp [accepted, List.drop_tail]
    simp only [hacc, hsize]
    refine ⟨trivial, trivial, ?_⟩
    simp [List.drop_tail]
  · simp [hg] at h

/-- C14, at the wallet with "a" in slot 0 whose backend refuses the third mutating call (the
count write): the slot and the value entry are cleared, the count is left at 1. -/
theorem clear_call_order_witness :
    ∃ m, _get_integer_value_0 m
        { keyValues := [("a", "x"), ("lxqt_wallet_size", "1")], keyID := [(0, "a")],
          faults := [true, true, false, true] } = some "a" ∧
      ({ keyValues := [("lxqt_wallet_open", "lxqt_wallet_open"), ("lxqt_wallet_size", "1")],
         keyID := [], faults := [] } : Wallet).keyID
        = (if accepted 1
              { keyValues := [("a", "x"), ("lxqt_wallet_size", "1")], keyID := [(0, "a")],
                faults := [true, true, false, true] }
            then clear m [(0, "a")] else [(0, "a")]) ∧
      ({ keyValues := [("lxqt_wallet_open", "lxqt_wallet_open"), ("lxqt_wallet_size", "1")],
         keyID := [], faults := [] } : Wallet).keyValues =
        (if accepted 3
              { keyValues := [("a", "x"), ("lxqt_wallet_size", "1")], keyID := [(0, "a")],
                faults := [true, true, false, true] }
          then clear "a" else id)
          ((if accepted 2
                { keyValues := [("a", "x"), ("lxqt_wallet_size", "1")], keyID := [(0, "a")],
                  faults := [true, true, false, true] }
            then
              store "lxqt_wallet_size"
                (snprintf_d (wrap32 (_get_string_value "lxqt_wallet_size"
                  { keyValues := [("a", "x"), ("lxqt_wallet_size", "1")], keyID := [(0, "a")],
                    faults := [true, true, false, true] } - 1)))
            else id) (store "lxqt_wallet_open" "lxqt_wallet_open"
              [("a", "x"), ("lxqt_wallet_size", "1")])) ∧
      ({ keyValues := [("lxqt_wallet_open", "lxqt_wallet_open"), ("lxqt_wallet_size", "1")],
         keyID := [], faults := [] } : Wallet).faults
        = [true, true, false, true].drop 4 :=
  clear_call_order 1 "a"
    { keyValues := [("a", "x"), ("lxqt_wallet_size", "1")], keyID := [(0, "a")],
      faults := [true, true, false, true] }
    { keyValues := [("lxqt_wallet_open", "lxqt_wallet_open"), ("lxqt_wallet_size", "1")],
      keyID := [], faults := [] }
    (by decide)

/-! ## C17: the count is persisted before the slot claim -/

theorem store_claim_false (key value : String) (i : Int) (w w' : Wallet)
    (hfree : _get_integer_value_0 i w = none) (hroll : accepted 2 w = true)
    (h : store_claim key value i w = (false, w')) :
    (∀ x, lookup x w'.keyID = lookup x w.keyID) ∧ w'.keyValues = w.keyValues := by
  obtain ⟨kv, ids, fl⟩ := w
  simp only [_get_integer_value_0] at hfree
  have hclear : ∀ x, lookup x (clear i (store i key ids)) = lookup x ids := by
    intro x
    by_cases hx : x = i
    · subst hx; rw [lookup_clear_self, hfree]
    · rw [lookup_clear_ne hx, lookup_store_ne hx]
  rcases fl with _ | ⟨a, _ | ⟨b, _ | ⟨c, rest⟩⟩⟩ <;>
    (try cases a) <;> (try cases b) <;> (try cases c) <;>
    simp [store_claim, _set_integer_value, _set_string_value, _clear_integer_value, accepts,
      accepted] at h hroll <;>
    (try (rw [← h]; exact ⟨fun x => by first | rfl | exact hclear x, rfl⟩))

theorem store_scan_false (key value : String) :
    ∀ (n : Nat) (i : Int) (w w' : Wallet),
      (∀ x name, _get_integer_value_0 x w = some name → atoi name ≠ -1) →
      accepted 2 w = true → store_scan key value n i w = (false, w') →
      (∀ x, lookup x w'.keyID = lookup x w.keyID) ∧ w'.keyValues = w.keyValues := by
  intro n
  induction n with
  | zero =>
    intro i w w' _ _ h
    simp only [store_scan, Prod.mk.injEq, true_and] at h
    rw [← h]; exact ⟨fun _ => rfl, rfl⟩
  | succ n ih =>
    intro i w w' hnames hroll h
    simp only [store_scan] at h
    split at h
    · rename_i hk
      have hfree : _get_integer_value_0 i w = none := by
        cases hl : _get_integer_value_0 i w with
        | none => rfl
        | some name =>
          exfalso
          apply hnames i name hl
          simpa [_get_integer_value, hl] using hk
      exact store_claim_false key value i w w' hfree hroll h
    · exact ih _ _ _ hnames hroll h

/-- C17 (amended): let the size entry be present with count `j`, `j` neither -1 nor
`INT_MAX`, let the gate pass, let the count write (mutating call 1) and the rollback clear
(mutating call 4, when it is reached) be accepted, and let no occupied slot hold a name whose
`atoi` is -1.  Whenever `lxqt_secret_service_password_store_sync` then returns FALSE, every
key-index slot has its content of before the call and the stored count is `j + 1`. -/
theorem failed_store_keeps_incremented_count (key value : String) (w w' : Wallet)
    (hgate : (lxqt_secret_service_wallet_is_open w).1 = true)
    (hcount : accepted 1 w = true) (hroll : accepted 4 w = true)
    (hj : _get_string_value "lxqt_wallet_size" w ≠ -1)
    (hmax : _get_string_value "lxqt_wallet_size" w < INT_MAX)
    (hnames : ∀ i name, _get_integer_value_0 i w = some name → atoi name ≠ -1)
    (hfalse : lxqt_secret_service_password_store_sync key value w = (false, w')) :
    (∀ i, _get_integer_value_0 i w' = _get_integer_value_0 i w) ∧
    lxqt_secret_service_get_value "lxqt_wallet_size" w'
      = some (snprintf_d (_get_string_value "lxqt_wallet_size" w + 1)) ∧
    _get_string_value "lxqt_wallet_size" w' = _get_string_value "lxqt_wallet_size" w + 1 := by
  have hr := get_string_value_range "lxqt_wallet_size" w
  simp only [INT_MAX] at hmax
  have hsize : _get_string_value "lxqt_wallet_size"
      { keyValues := store "lxqt_wallet_open" "lxqt_wallet_open" w.keyValues,
        keyID := w.keyID, faults := w.faults.tail }
      = _get_string_value "lxqt_wallet_size" w := by
    simp only [_get_string_value, _get_string_value_0]
    rw [lookup_store_ne size_ne_open]
  have hw : wrap32 (_get_string_value "lxqt_wallet_size" w + 1)
      = _get_string_value "lxqt_wallet_size" w + 1 := wrap32_of_int (by omega) (by omega)
  have hcw : accepts
      { keyValues := store "lxqt_wallet_open" "lxqt_wallet_open" w.keyValues,
        keyID := w.keyID, faults := w.faults.tail } = true := by
    simpa [accepts, accepted, List.drop_one] using hcount
  unfold lxqt_secret_service_password_store_sync at hfalse
  simp only [gate_passed w hgate, Bool.not_true, Bool.false_eq_true, if_false, hsize, hj,
    hw, _set_string_value, hcw, if_true] at hfalse
  obtain ⟨hslots, hkv⟩ := store_scan_false key value _ _
    { keyValues := store "lxqt_wallet_size"
        (snprintf_d (_get_string_value "lxqt_wallet_size" w + 1))
        (store "lxqt_wallet_open" "lxqt_wallet_open" w.keyValues),
      keyID := w.keyID, faults := w.faults.tail.tail } w'
    (fun x name hx => hnames x name hx)
    (by simpa [accepted, List.drop_tail] using hroll) hfalse
  have hstored : lookup "lxqt_wallet_size" w'.keyValues
      = some (snprintf_d (_get_string_value "lxqt_wallet_size" w + 1)) := by
    rw [hkv]; exact lookup_store_self _ _ _
  refine ⟨fun i => hslots i, hstored, ?_⟩
  simp only [_get_string_value, _get_string_value_0, hstored]
  have e0 := hr
  simp only [_get_string_value, _get_string_value_0] at e0 hmax ⊢
  exact atoi_snprintf_d _ (by omega) (by omega)

/-- C17, at the wallet with "a" in slot 0 and count 1 whose backend refuses the write of
"b" -> "y". -/
theorem failed_store_keeps_incremented_count_witness :
    (∀ i, _get_integer_value_0 i
        { keyValues := [("lxqt_wallet_size", "2"), ("lxqt_wallet_open", "lxqt_wallet_open"),
            ("a", "x")],
          keyID := [(0, "a")], faults := [] }
      = _get_integer_value_0 i
          { keyValues := [("a", "x"), ("lxqt_wallet_size", "1")], keyID := [(0, "a")],
            faults := [true, true, true, false] }) ∧
    lxqt_secret_service_get_value "lxqt_wallet_size"
        { keyValues := [("lxqt_wallet_size", "2"), ("lxqt_wallet_open", "lxqt_wallet_open"),
            ("a", "x")],
          keyID := [(0, "a")], faults := [] }
      = some (snprintf_d (_get_string_value "lxqt_wallet_size"
          { keyValues := [("a", "x"), ("lxqt_wallet_size", "1")], keyID := [(0, "a")],
            faults := [true, true, true, false] } + 1)) ∧
    _get_string_value "lxqt_wallet_size"
        { keyValues := [("lxqt_wallet_size", "2"), ("lxqt_wallet_open", "lxqt_wallet_open"),
            ("a", "x")],
          keyID := [(0, "a")], faults := [] }
      = _get_string_value "lxqt_wallet_size"
          { keyValues := [("a", "x"), ("lxqt_wallet_size", "1")], keyID := [(0, "a")],
            faults := [true, true, true, false] } + 1 :=
  failed_store_keeps_incremented_count "b" "y"
    { keyValues := [("a", "x"), ("lxqt_wallet_size", "1")], keyID := [(0, "a")],
      faults := [true, true, true, false] }
    { keyValues := [("lxqt_wallet_size", "2"), ("lxqt_wallet_open", "lxqt_wallet_open"),
        ("a", "x")],
      keyID := [(0, "a")], faults := [] }
    (by decide) (by decide) (by decide) (by decide) (by decide)
    (by
      intro i name h
      simp only [_get_integer_value_0, lookup] at h
      split at h
      · cases h; decide
      · cases h)
    (by decide)

/-- C17 as stated fails.  With the size entry "-1" (count `j = -1`) the store takes the
first-insert branch: it returns FALSE having put the key into slot 0 and written the count
"1", not `j + 1 = 0`.  With the size entry "2147483647" (`j = INT_MAX`) the store returns
FALSE with the stored count -2147483648, since `j + 1` is not an `int`. -/
theorem failed_store_count_not_incremented :
    (_get_string_value "lxqt_wallet_size"
        { keyValues := [("lxqt_wallet_size", "-1")], keyID := [], faults := [] } = -1 ∧
      lxqt_secret_service_password_store_sync "a" "b"
        { keyValues := [("lxqt_wallet_size", "-1")], keyID := [], faults := [] }
        = (false,
            { keyValues := [("lxqt_wallet_size", "1"),
                ("lxqt_wallet_open", "lxqt_wallet_open")],
              keyID := [(0, "a")], faults := [] })) ∧
    (_get_string_value "lxqt_wallet_size"
        { keyValues := [("lxqt_wallet_size", "2147483647")], keyID := [], faults := [] }
        = 2147483647 ∧
      lxqt_secret_service_password_store_sync "a" "b"
        { keyValues := [("lxqt_wallet_size", "2147483647")], keyID := [], faults := [] }
        = (false,
            { keyValues := [("lxqt_wallet_size", "-2147483648"),
                ("lxqt_wallet_open", "lxqt_wallet_open")],
              keyID := [], faults := [] }) ∧
      _get_string_value "lxqt_wallet_size"
        { keyValues := [("lxqt_wallet_size", "-2147483648"),
            ("lxqt_wallet_open", "lxqt_wallet_open")],
          keyID := [], faults := [] } = -2147483648) := by
  refine ⟨⟨by decide, by decide⟩, by decide, by decide, by decide⟩

/-! ## C15: a free slot within the scan bound -/

theorem exists_absent_slot (w : Wallet) (j : Int) (hj : 0 ≤ j)
    (hocc : (occupied w : Int) ≤ j) :
    ∃ x, 0 ≤ x ∧ x ≤ j ∧ _get_integer_value_0 x w = none := by
  by_contra hno
  have hsub : Finset.Icc (0 : Int) j ⊆ (w.keyID.map Prod.fst).toFinset := by
    intro x hx
    rw [Finset.mem_Icc] at hx
    by_contra hmem
    exact hno ⟨x, hx.1, hx.2, (lookup_eq_none_iff x w.keyID).2 hmem⟩
  have hcard := Finset.card_le_card hsub
  rw [Int.card_Icc] at hcard
  unfold occupied at hocc
  omega

theorem store_scan_first_free (key value : String) :
    ∀ (n : Nat) (i : Int) (w : Wallet), w.faults = [] →
      (∃ x, i ≤ x ∧ x < i + n ∧ _get_integer_value x w = -1) →
      ∃ f, i ≤ f ∧ f < i + n ∧ _get_integer_value f w = -1 ∧
        (∀ x, i ≤ x → x < f → _get_integer_value x w ≠ -1) ∧
        store_scan key value n i w =
          (true, { keyValues := store key value w.keyValues, keyID := store f key w.keyID,
                   faults := [] }) := by
  intro n
  induction n with
  | zero =>
    intro i w _ h
    obtain ⟨x, h1, h2, _⟩ := h
    simp at h2; omega
  | succ n ih =>
    intro i w hacc h
    obtain ⟨x, h1, h2, h3⟩ := h
    by_cases hk : _get_integer_value i w = -1
    · refine ⟨i, le_refl _, by push_cast; omega, hk, fun y hy1 hy2 => by omega, ?_⟩
      simp only [store_scan, if_pos hk, store_claim_accepted _ _ _ _ hacc]
    · have hxi : x ≠ i := fun e => hk (e ▸ h3)
      obtain ⟨f, hf1, hf2, hf3, hf4, hf5⟩ := ih (i + 1) w hacc
        ⟨x, by omega, by push_cast at h2 ⊢; omega, h3⟩
      refine ⟨f, by omega, by push_cast at hf2 ⊢; omega, hf3, ?_, ?_⟩
      · intro y hy1 hy2
        by_cases hyi : y = i
        · subst hyi; exact hk
        · exact hf4 y (by omega) hy2
      · simp only [store_scan, if_neg hk]
        exact hf5

theorem store_sync_claims_first_free (key value : String) (w : Wallet) (hacc : w.faults = [])
    (hmax : _get_string_value "lxqt_wallet_size" w < 2147483647)
    (hfree : ∃ x, 0 ≤ x ∧ x ≤ _get_string_value "lxqt_wallet_size" w ∧
      _get_integer_value x w = -1) :
    ∃ f, 0 ≤ f ∧ f ≤ _get_string_value "lxqt_wallet_size" w ∧ _get_integer_value f w = -1 ∧
      (∀ x, 0 ≤ x → x < f → _get_integer_value x w ≠ -1) ∧
      lxqt_secret_service_password_store_sync key value w =
        (true, { keyValues := store key value (store "lxqt_wallet_size"
                   (snprintf_d (_get_string_value "lxqt_wallet_size" w + 1))
                   (store "lxqt_wallet_open" "lxqt_wallet_open" w.keyValues)),
                 keyID := store f key w.keyID, faults := [] }) := by
  obtain ⟨x, hx0, hxj, hx⟩ := hfree
  have hjne : _get_string_value "lxqt_wallet_size" w ≠ -1 := by omega
  have hw : wrap32 (_get_string_value "lxqt_wallet_size" w + 1)
      = _get_string_value "lxqt_wallet_size" w + 1 := wrap32_of_int (by omega) (by omega)
  obtain ⟨f, hf1, hf2, hf3, hf4, hf5⟩ := store_scan_first_free key value
    (_get_string_value "lxqt_wallet_size" w + 1).toNat 0
    { keyValues := store "lxqt_wallet_size"
        (snprintf_d (_get_string_value "lxqt_wallet_size" w + 1))
        (store "lxqt_wallet_open" "lxqt_wallet_open" w.keyValues),
      keyID := w.keyID, faults := [] } rfl
    ⟨x, hx0, by rw [Int.toNat_of_nonneg (by omega)]; omega,
      (get_integer_value_congr x _ w rfl).trans hx⟩
  rw [Int.toNat_of_nonneg (by omega)] at hf2
  refine ⟨f, hf1, by omega, ?_, ?_, ?_⟩
  · rw [get_integer_value_congr f w _ rfl]; exact hf3
  · intro y hy1 hy2
    rw [get_integer_value_congr y w _ rfl]; exact hf4 y hy1 hy2
  · simp only [lxqt_secret_service_password_store_sync, gate_accepted w hacc,
      get_size_after_gate, Bool.not_true, Bool.false_eq_true, if_false, if_neg hjne, hw,
      set_string_accepted]
    exact hf5

/-- C15 (amended): for every wallet state whose size entry is present with count
`0 <= j < INT_MAX` and with at most `j` occupied key-index slots, at least one of the slots
`0..j` is absent, and `lxqt_secret_service_password_store_sync` on a backend that accepts
every write returns TRUE: it stops at the first slot `f <= j` whose `_get_integer_value` is
-1, after `f + 1 <= j + 1` slot lookups, and writes the key there. -/
theorem gap_within_scan_bound (key value : String) (w : Wallet) (hacc : w.faults = [])
    (hj0 : 0 ≤ _get_string_value "lxqt_wallet_size" w)
    (hmax : _get_string_value "lxqt_wallet_size" w < INT_MAX)
    (hocc : (occupied w : Int) ≤ _get_string_value "lxqt_wallet_size" w) :
    (∃ x, 0 ≤ x ∧ x ≤ _get_string_value "lxqt_wallet_size" w ∧
      _get_integer_value_0 x w = none) ∧
    ∃ f, 0 ≤ f ∧ f ≤ _get_string_value "lxqt_wallet_size" w ∧
      (∀ x, 0 ≤ x → x < f → _get_integer_value x w ≠ -1) ∧
      lxqt_secret_service_password_store_sync key value w =
        (true, { keyValues := store key value (store "lxqt_wallet_size"
                   (snprintf_d (_get_string_value "lxqt_wallet_size" w + 1))
                   (store "lxqt_wallet_open" "lxqt_wallet_open" w.keyValues)),
                 keyID := store f key w.keyID, faults := [] }) := by
  obtain ⟨x, hx0, hxj, hx⟩ := exists_absent_slot w _ hj0 hocc
  refine ⟨⟨x, hx0, hxj, hx⟩, ?_⟩
  obtain ⟨f, hf0, hfj, _, hf2, hf3⟩ := store_sync_claims_first_free key value w hacc
    (by simpa [INT_MAX] using hmax)
    ⟨x, hx0, hxj, by simp [_get_integer_value, hx]⟩
  exact ⟨f, hf0, hfj, hf2, hf3⟩

/-- C15, at the wallet with "a" in slot 0 and count 1. -/
theorem gap_within_scan_bound_witness :
    (∃ x, 0 ≤ x ∧ x ≤ _get_string_value "lxqt_wallet_size"
        { keyValues := [("a", "x"), ("lxqt_wallet_size", "1")], keyID := [(0, "a")],
          faults := [] } ∧
      _get_integer_value_0 x
        { keyValues := [("a", "x"), ("lxqt_wallet_size", "1")], keyID := [(0, "a")],
          faults := [] } = none) ∧
    ∃ f, 0 ≤ f ∧ f ≤ _get_string_value "lxqt_wallet_size"
        { keyValues := [("a", "x"), ("lxqt_wallet_size", "1")], keyID := [(0, "a")],
          faults := [] } ∧
      (∀ x, 0 ≤ x → x < f → _get_integer_value x
        { keyValues := [("a", "x"), ("lxqt_wallet_size", "1")], keyID := [(0, "a")],
          faults := [] } ≠ -1) ∧
      lxqt_secret_service_password_store_sync "b" "y"
        { keyValues := [("a", "x"), ("lxqt_wallet_size", "1")], keyID := [(0, "a")],
          faults := [] } =
        (true, { keyValues := store "b" "y" (store "lxqt_wallet_size"
                   (snprintf_d (_get_string_value "lxqt_wallet_size"
                     { keyValues := [("a", "x"), ("lxqt_wallet_size", "1")],
                       keyID := [(0, "a")], faults := [] } + 1))
                   (store "lxqt_wallet_open" "lxqt_wallet_open"
                     [("a", "x"), ("lxqt_wallet_size", "1")])),
                 keyID := store f "b" [(0, "a")], faults := [] }) :=
  gap_within_scan_bound "b" "y"
    { keyValues := [("a", "x"), ("lxqt_wallet_size", "1")], keyID := [(0, "a")], faults := [] }
    rfl (by decide) (by decide) (by decide)

/-- C15 as stated fails at the count `INT_MAX`: with the size entry "2147483647" and no
occupied slot, `j + 1` overflows to -2147483648, the loop `while (i < j)` is not entered and
the store ends in its final `return FALSE`. -/
theorem no_gap_found_at_int_max :
    (0 ≤ _get_string_value "lxqt_wallet_size"
        { keyValues := [("lxqt_wallet_size", "2147483647")], keyID := [], faults := [] } ∧
      (occupied { keyValues := [("lxqt_wallet_size", "2147483647")], keyID := [],
                  faults := [] } : Int)
        ≤ _get_string_value "lxqt_wallet_size"
          { keyValues := [("lxqt_wallet_size", "2147483647")], keyID := [], faults := [] }) ∧
    (lxqt_secret_service_password_store_sync "a" "b"
      { keyValues := [("lxqt_wallet_size", "2147483647")], keyID := [], faults := [] }).1
      = false := by
  refine ⟨⟨by decide, by decide⟩, by decide⟩

/-! ## C16: no update in place -/

theorem filter_clear_self {α : Type} [DecidableEq α] (a : α) (l : List (α × String)) :
    (clear a l).filter (fun p => decide (p.1 = a)) = [] := by
  rw [List.filter_eq_nil_iff]
  intro p hp
  simp only [clear, List.mem_filter] at hp
  simpa using hp.2

theorem size_after_store (key value : String) (j : Int) (kv : List (String × String))
    (ids : List (Int × String)) (hkey : key ≠ "lxqt_wallet_size") (hj0 : 0 ≤ j)
    (hmax : j < 2147483647) :
    lxqt_secret_service_wallet_size
      { keyValues := store key value (store "lxqt_wallet_size" (snprintf_d (j + 1)) kv),
        keyID := ids, faults := [] } = j + 1 := by
  simp only [lxqt_secret_service_wallet_size, _number_of_entries_in_the_wallet,
    _get_string_value, _get_string_value_0]
  rw [lookup_store_ne (Ne.symm hkey), lookup_store_self]
  simp only [atoi_snprintf_d (j + 1) (by omega) (by omega)]
  rw [if_neg (by omega)]

theorem size_of_positive_count (w : Wallet) (h : 0 < lxqt_secret_service_wallet_size w) :
    _get_string_value "lxqt_wallet_size" w = lxqt_secret_service_wallet_size w := by
  simp only [lxqt_secret_service_wallet_size, _number_of_entries_in_the_wallet] at h ⊢
  split at h
  · omega
  · rename_i hne; rw [if_neg hne]

/-- C16 (amended): on a backend that accepts every write, in a state where count = number of
occupied slots (below `INT_MAX`), storing a key that some slot `s` already holds, the key
being other than "lxqt_wallet_size" and of `atoi` value other than -1, returns TRUE,
increases the stored count by one and leaves the key in slot `s` and in a second slot `f`,
while the value store has the single entry `key -> newValue`. -/
theorem store_of_held_key_duplicates (key newValue : String) (w : Wallet) (s : Int)
    (hacc : w.faults = [])
    (hcount : lxqt_secret_service_wallet_size w = (occupied w : Int))
    (hheld : _get_integer_value_0 s w = some key)
    (hkey : key ≠ "lxqt_wallet_size") (hatoi : atoi key ≠ -1)
    (hmax : lxqt_secret_service_wallet_size w < INT_MAX) :
    ∃ f w', f ≠ s ∧ lxqt_secret_service_password_store_sync key newValue w = (true, w') ∧
      lxqt_secret_service_wallet_size w' = lxqt_secret_service_wallet_size w + 1 ∧
      _get_integer_value_0 s w' = some key ∧ _get_integer_value_0 f w' = some key ∧
      lxqt_secret_service_get_value key w' = some newValue ∧
      w'.keyValues.filter (fun p => decide (p.1 = key)) = [(key, newValue)] := by
  have hmem : s ∈ (w.keyID.map Prod.fst).toFinset :=
    (lookup_isSome_iff s w.keyID).1 ⟨key, hheld⟩
  have hpos : 0 < occupied w := Finset.card_pos.2 ⟨s, hmem⟩
  have hj := size_of_positive_count w (by omega)
  simp only [INT_MAX] at hmax
  obtain ⟨x, hx0, hxj, hx⟩ := exists_absent_slot w (_get_string_value "lxqt_wallet_size" w)
    (by omega) (by omega)
  obtain ⟨f, hf0, hfj, hf1, _, hf3⟩ := store_sync_claims_first_free key newValue w hacc
    (by omega) ⟨x, hx0, hxj, by simp [_get_integer_value, hx]⟩
  have hfs : f ≠ s := by
    intro e
    rw [e] at hf1
    simp [_get_integer_value, hheld] at hf1
    exact hatoi hf1
  refine ⟨f, _, hfs, hf3, ?_, ?_, ?_, ?_, ?_⟩
  · rw [size_after_store key newValue _ _ _ hkey (by omega) (by omega)]
    omega
  · simp only [_get_integer_value_0] at hheld ⊢
    rw [lookup_store_ne (Ne.symm hfs)]; exact hheld
  · simp [_get_integer_value_0, lookup_store_self]
  · simp [lxqt_secret_service_get_value, _get_string_value_0, lookup_store_self]
  · simp only [store, List.filter_cons, decide_True, if_true]
    rw [filter_clear_self]

/-- C16, at the wallet with "a" in slot 0 and count 1: storing "a" again. -/
theorem store_of_held_key_duplicates_witness :
    ∃ f w', f ≠ 0 ∧
      lxqt_secret_service_password_store_sync "a" "z"
        { keyValues := [("a", "x"), ("lxqt_wallet_size", "1")], keyID := [(0, "a")],
          faults := [] } = (true, w') ∧
      lxqt_secret_service_wallet_size w' =
        lxqt_secret_service_wallet_size
          { keyValues := [("a", "x"), ("lxqt_wallet_size", "1")], keyID := [(0, "a")],
            faults := [] } + 1 ∧
      _get_integer_value_0 0 w' = some "a" ∧ _get_integer_value_0 f w' = some "a" ∧
      lxqt_secret_service_get_value "a" w' = some "z" ∧
      w'.keyValues.filter (fun p => decide (p.1 = "a")) = [("a", "z")] :=
  store_of_held_key_duplicates "a" "z"
    { keyValues := [("a", "x"), ("lxqt_wallet_size", "1")], keyID := [(0, "a")], faults := [] }
    0 rfl (by decide) (by decide) (by decide) (by decide) (by decide)

/-- C16 as stated fails for the key "lxqt_wallet_size": in the wallet with count 1 whose
slot 0 holds "lxqt_wallet_size", storing "lxqt_wallet_size" with value "7" returns TRUE and
puts the key into a second slot, but the value write lands on the count entry: the stored
count is 7 afterwards, not 2. -/
theorem store_of_size_key_sets_count :
    (lxqt_secret_service_wallet_size
        { keyValues := [("lxqt_wallet_size", "1")], keyID := [(0, "lxqt_wallet_size")],
          faults := [] } = 1 ∧
      occupied
        { keyValues := [("lxqt_wallet_size", "1")], keyID := [(0, "lxqt_wallet_size")],
          faults := [] } = 1) ∧
    lxqt_secret_service_password_store_sync "lxqt_wallet_size" "7"
      { keyValues := [("lxqt_wallet_size", "1")], keyID := [(0, "lxqt_wallet_size")],
        faults := [] }
      = (true,
          { keyValues := [("lxqt_wallet_size", "7"), ("lxqt_wallet_open", "lxqt_wallet_open")],
            keyID := [(1, "lxqt_wallet_size"), (0, "lxqt_wallet_size")], faults := [] }) ∧
    lxqt_secret_service_wallet_size
      { keyValues := [("lxqt_wallet_size", "7"), ("lxqt_wallet_open", "lxqt_wallet_open")],
        keyID := [(1, "lxqt_wallet_size"), (0, "lxqt_wallet_size")], faults := [] } = 7 := by
  refine ⟨⟨by decide, by decide⟩, by decide, by decide⟩

/-! ## C20: the free-slot test of the store scan -/

/-- C20 (amended): the scan of `lxqt_secret_service_password_store_sync` treats a slot as
free exactly when its lookup is absent or the name stored in it has `atoi` value -1.  When
the first such slot `i` of a scan (`0 <= i <= j`, count `j < INT_MAX`) is of the second kind,
holding `name`, then on a backend that accepts every write the store of a key other than
"lxqt_wallet_size" returns TRUE, slot `i` now holds the new key, every other slot is
unchanged, the stored count is `j + 1` and the number of occupied slots is unchanged;
`name` is afterwards found only in the other slots that already held it, or in slot `i`
when the new key is `name` itself. -/
theorem free_slot_test (key value : String) (w : Wallet) (i : Int) (name : String)
    (hacc : w.faults = []) (hi0 : 0 ≤ i)
    (hij : i ≤ _get_string_value "lxqt_wallet_size" w)
    (hmax : _get_string_value "lxqt_wallet_size" w < INT_MAX)
    (hbefore : ∀ x, 0 ≤ x → x < i → _get_integer_value x w ≠ -1)
    (hname : _get_integer_value_0 i w = some name) (hatoi : atoi name = -1)
    (hkey : key ≠ "lxqt_wallet_size") :
    (∀ s, _get_integer_value s w = -1 ↔
      (_get_integer_value_0 s w = none ∨
        ∃ n, _get_integer_value_0 s w = some n ∧ atoi n = -1)) ∧
    ∃ w', lxqt_secret_service_password_store_sync key value w = (true, w') ∧
      _get_integer_value_0 i w' = some key ∧
      (∀ s, s ≠ i → _get_integer_value_0 s w' = _get_integer_value_0 s w) ∧
      _get_string_value "lxqt_wallet_size" w' = _get_string_value "lxqt_wallet_size" w + 1 ∧
      occupied w' = occupied w ∧
      (∀ s, _get_integer_value_0 s w' = some name →
        (s = i ∧ key = name) ∨ (s ≠ i ∧ _get_integer_value_0 s w = some name)) := by
  constructor
  · intro s
    unfold _get_integer_value
    cases hl : _get_integer_value_0 s w with
    | none => simp
    | some n => simp
  · simp only [INT_MAX] at hmax
    have hgi : _get_integer_value i w = -1 := by
      simp [_get_integer_value, hname, hatoi]
    obtain ⟨f, hf0, _, hf1, hf2, hf3⟩ := store_sync_claims_first_free key value w hacc
      hmax ⟨i, hi0, hij, hgi⟩
    have hfi : f = i := by
      by_contra hne
      rcases lt_or_gt_of_ne hne with hlt | hgt
      · exact hbefore f hf0 hlt hf1
      · exact hf2 i hi0 hgt hgi
    subst hfi
    have hmem : f ∈ (w.keyID.map Prod.fst).toFinset :=
      (lookup_isSome_iff f w.keyID).1 ⟨name, hname⟩
    refine ⟨_, hf3, ?_, ?_, ?_, ?_, ?_⟩
    · simp [_get_integer_value_0, lookup_store_self]
    · intro s hs
      simp only [_get_integer_value_0]
      rw [lookup_store_ne hs]
    · have hr := get_string_value_range "lxqt_wallet_size" w
      simp only [_get_string_value, _get_string_value_0] at hij hmax hr ⊢
      rw [lookup_store_ne (Ne.symm hkey), lookup_store_self]
      exact atoi_snprintf_d _ (by omega) (by omega)
    · simp only [occupied, attributes_store]
      rw [Finset.insert_eq_of_mem hmem]
    · intro s hs
      simp only [_get_integer_value_0] at hs ⊢
      by_cases hsf : s = f
      · subst hsf
        rw [lookup_store_self] at hs
        exact Or.inl ⟨rfl, Option.some.inj hs⟩
      · rw [lookup_store_ne hsf] at hs
        exact Or.inr ⟨hsf, hs⟩

/-- C20, at the wallet with count 1 whose slot 0 holds "-1": storing "b". -/
theorem free_slot_test_witness :
    (∀ s, _get_integer_value s
        { keyValues := [("lxqt_wallet_size", "1")], keyID := [(0, "-1")], faults := [] } = -1 ↔
      (_get_integer_value_0 s
          { keyValues := [("lxqt_wallet_size", "1")], keyID := [(0, "-1")], faults := [] }
          = none ∨
        ∃ n, _get_integer_value_0 s
          { keyValues := [("lxqt_wallet_size", "1")], keyID := [(0, "-1")], faults := [] }
          = some n ∧ atoi n = -1)) ∧
    ∃ w', lxqt_secret_service_password_store_sync "b" "y"
        { keyValues := [("lxqt_wallet_size", "1")], keyID := [(0, "-1")], faults := [] }
        = (true, w') ∧
      _get_integer_value_0 0 w' = some "b" ∧
      (∀ s, s ≠ 0 → _get_integer_value_0 s w' = _get_integer_value_0 s
        { keyValues := [("lxqt_wallet_size", "1")], keyID := [(0, "-1")], faults := [] }) ∧
      _get_string_value "lxqt_wallet_size" w' = _get_string_value "lxqt_wallet_size"
        { keyValues := [("lxqt_wallet_size", "1")], keyID := [(0, "-1")], faults := [] } + 1 ∧
      occupied w' = occupied
        { keyValues := [("lxqt_wallet_size", "1")], keyID := [(0, "-1")], faults := [] } ∧
      (∀ s, _get_integer_value_0 s w' = some "-1" →
        (s = 0 ∧ "b" = "-1") ∨ (s ≠ 0 ∧ _get_integer_value_0 s
          { keyValues := [("lxqt_wallet_size", "1")], keyID := [(0, "-1")], faults := [] }
          = some "-1")) :=
  free_slot_test "b" "y"
    { keyValues := [("lxqt_wallet_size", "1")], keyID := [(0, "-1")], faults := [] }
    0 "-1" rfl (by decide) (by decide) (by decide) (fun x h0 h1 => by omega) (by decide)
    (by decide) (by decide)

/-- C20 as stated fails when the stored name is stored again: in the wallet with count 1
whose slot 0 holds "-1", storing "-1" returns TRUE, raises the count to 2 and keeps a single
occupied slot, but "-1", the overwritten name, still appears in the key index (slot 0).
It also fails when a second slot holds the name: with "-1" in slots 0 and 1, storing "x"
overwrites slot 0 and "-1" still appears in slot 1. -/
theorem overwritten_name_can_remain :
    _get_integer_value_0 0
        { keyValues := [("lxqt_wallet_size", "1")], keyID := [(0, "-1")], faults := [] }
      = some "-1" ∧
    atoi "-1" = -1 ∧
    lxqt_secret_service_password_store_sync "-1" "b"
      { keyValues := [("lxqt_wallet_size", "1")], keyID := [(0, "-1")], faults := [] }
      = (true,
          { keyValues := [("-1", "b"), ("lxqt_wallet_size", "2"),
              ("lxqt_wallet_open", "lxqt_wallet_open")],
            keyID := [(0, "-1")], faults := [] }) ∧
    _get_integer_value_0 0
        { keyValues := [("-1", "b"), ("lxqt_wallet_size", "2"),
            ("lxqt_wallet_open", "lxqt_wallet_open")],
          keyID := [(0, "-1")], faults := [] }
      = some "-1" ∧
    lxqt_secret_service_password_store_sync "x" "y"
      { keyValues := [("lxqt_wallet_size", "2")], keyID := [(0, "-1"), (1, "-1")],
        faults := [] }
      = (true,
          { keyValues := [("x", "y"), ("lxqt_wallet_size", "3"),
              ("lxqt_wallet_open", "lxqt_wallet_open")],
            keyID := [(0, "x"), (1, "-1")], faults := [] }) := by
  refine ⟨by decide, by decide, by decide, by decide, by decide⟩

/-! ## C18: the count equals the number of occupied slots -/

theorem first_insert_state (key value : String) (w : Wallet) (hacc : w.faults = [])
    (hj : _get_string_value "lxqt_wallet_size" w = -1) :
    lxqt_secret_service_password_store_sync key value w =
      (false, { keyValues := store "lxqt_wallet_size" "1"
                  (store "lxqt_wallet_open" "lxqt_wallet_open" w.keyValues),
                keyID := store 0 key w.keyID, faults := [] }) := by
  simp only [lxqt_secret_service_password_store_sync, gate_accepted w hacc,
    get_size_after_gate, hj, set_string_accepted, set_integer_accepted, Bool.not_true,
    Bool.false_eq_true, if_false, if_true]

theorem lowest_slot_holding (key : String) (w : Wallet) (m : Int) (hm0 : 0 ≤ m)
    (hm : _get_integer_value_0 m w = some key) :
    ∃ m₀, 0 ≤ m₀ ∧ m₀ ≤ m ∧ _get_integer_value_0 m₀ w = some key ∧
      ∀ x, 0 ≤ x → x < m₀ → _get_integer_value_0 x w ≠ some key := by
  have hex : ∃ n : Nat, _get_integer_value_0 (n : Int) w = some key :=
    ⟨m.toNat, by rw [Int.toNat_of_nonneg hm0]; exact hm⟩
  refine ⟨(Nat.find hex : Int), by positivity, ?_, Nat.find_spec hex, ?_⟩
  · have := Nat.find_min' hex (show _get_integer_value_0 (m.toNat : Int) w = some key by
      rw [Int.toNat_of_nonneg hm0]; exact hm)
    omega
  · intro x hx0 hxlt hx
    have hlt : x.toNat < Nat.find hex := by omega
    exact Nat.find_min hex hlt (by rw [Int.toNat_of_nonneg hx0]; exact hx)

theorem clear_sync_finds (key : String) (w : Wallet) (m : Int) (hacc : w.faults = [])
    (hcount : lxqt_secret_service_wallet_size w = (occupied w : Int))
    (hm : _get_integer_value_0 m w = some key)
    (hlow : ∀ x, 0 ≤ x → x < m → _get_integer_value_0 x w ≠ some key)
    (hm0 : 0 ≤ m) (hmmax : m ≤ 2147483647) :
    ∀ fuel, m.toNat < fuel →
      lxqt_secret_service_clear_sync fuel key w = some (true,
        { keyValues := clear key (store "lxqt_wallet_size"
            (snprintf_d (wrap32 (_get_string_value "lxqt_wallet_size" w - 1)))
            (store "lxqt_wallet_open" "lxqt_wallet_open" w.keyValues)),
          keyID := clear m w.keyID, faults := [] }) := by
  have hmem : m ∈ (w.keyID.map Prod.fst).toFinset :=
    (lookup_isSome_iff m w.keyID).1 ⟨key, hm⟩
  have hpos : 0 < occupied w := Finset.card_pos.2 ⟨m, hmem⟩
  have hr := get_string_value_range "lxqt_wallet_size" w
  have hj := size_of_positive_count w (by omega)
  have hsub : (((w.keyID.map Prod.fst).toFinset.filter (fun x => 0 ≤ x ∧ x < m)).card : Int)
      < occupied w := by
    have h1 : (w.keyID.map Prod.fst).toFinset.filter (fun x => 0 ≤ x ∧ x < m)
        ⊆ (w.keyID.map Prod.fst).toFinset.erase m := by
      intro x hx
      rw [Finset.mem_filter] at hx
      exact Finset.mem_erase.2 ⟨by omega, hx.1⟩
    have h2 := Finset.card_le_card h1
    rw [Finset.card_erase_of_mem hmem] at h2
    unfold occupied at hpos ⊢
    omega
  intro fuel hfuel
  simp only [lxqt_secret_service_clear_sync, gate_accepted w hacc, Bool.not_true,
    Bool.false_eq_true, if_false]
  rw [clear_scan_finds key _ m
    { keyValues := store "lxqt_wallet_open" "lxqt_wallet_open" w.keyValues,
      keyID := w.keyID, faults := [] } hm hmmax
    (by
      show _number_of_entries_in_the_wallet w ≤ 2147483647
      have := hcount
      simp only [lxqt_secret_service_wallet_size] at this hj
      omega)
    fuel 0 0 (by simpa using hfuel) (le_refl _) (le_refl _) hm0
    (by
      have := hcount
      simp only [lxqt_secret_service_wallet_size] at this
      rw [this]
      simp only [zero_add]
      exact le_of_lt hsub)
    (fun x h1 h2 => hlow x h1 h2),
    clear_match_accepted _ _ _ rfl, get_size_after_gate]

theorem slotInvariant_store (key value : String) (w : Wallet) (hacc : w.faults = [])
    (hinv : slotInvariant w) (hkey : reserved key = false) (hatoi : atoi key ≠ -1)
    (hmax : lxqt_secret_service_wallet_size w < 2147483647) :
    slotInvariant (lxqt_secret_service_password_store_sync key value w).2 ∧
    0 ≤ lxqt_secret_service_wallet_size
      (lxqt_secret_service_password_store_sync key value w).2 := by
  obtain ⟨hcount, hnames⟩ := hinv
  have hk1 : key ≠ "lxqt_wallet_size" := by
    intro e; simp [reserved, e] at hkey
  have hgood : ∀ (f : Int) (i : Int) (name : String),
      lookup i (store f key w.keyID) = some name → reserved name = false ∧ atoi name ≠ -1 := by
    intro f i name h
    by_cases hif : i = f
    · subst hif
      rw [lookup_store_self] at h
      cases h
      exact ⟨hkey, hatoi⟩
    · rw [lookup_store_ne hif] at h
      exact hnames i name h
  by_cases hj : _get_string_value "lxqt_wallet_size" w = -1
  · rw [first_insert_state key value w hacc hj]
    have hzero : occupied w = 0 := by
      simp [lxqt_secret_service_wallet_size, _number_of_entries_in_the_wallet, hj] at hcount
      omega
    have hempty : (w.keyID.map Prod.fst).toFinset = ∅ := Finset.card_eq_zero.1 hzero
    have hsize : lxqt_secret_service_wallet_size
        { keyValues := store "lxqt_wallet_size" "1"
            (store "lxqt_wallet_open" "lxqt_wallet_open" w.keyValues),
          keyID := store 0 key w.keyID, faults := [] } = 1 := by
      simp [lxqt_secret_service_wallet_size, _number_of_entries_in_the_wallet,
        _get_string_value, _get_string_value_0, lookup_store_self, atoi_one]
    refine ⟨⟨?_, fun i name h => hgood 0 i name h⟩, by rw [hsize]; decide⟩
    rw [hsize]
    simp [occupied, attributes_store, hempty]
  · have hsz : lxqt_secret_service_wallet_size w = _get_string_value "lxqt_wallet_size" w := by
      simp [lxqt_secret_service_wallet_size, _number_of_entries_in_the_wallet, hj]
    rw [hsz] at hcount hmax
    obtain ⟨x, hx0, hxj, hx⟩ := exists_absent_slot w (_get_string_value "lxqt_wallet_size" w)
      (by omega) (by omega)
    obtain ⟨f, hf0, hfj, hf1, _, hf3⟩ := store_sync_claims_first_free key value w hacc
      hmax ⟨x, hx0, hxj, by simp [_get_integer_value, hx]⟩
    rw [hf3]
    have habsent : lookup f w.keyID = none := by
      cases hl : lookup f w.keyID with
      | none => rfl
      | some name =>
        exfalso
        apply (hnames f name hl).2
        simpa [_get_integer_value, _get_integer_value_0, hl] using hf1
    have hsize := size_after_store key value (_get_string_value "lxqt_wallet_size" w)
      (store "lxqt_wallet_open" "lxqt_wallet_open" w.keyValues) (store f key w.keyID) hk1
      (by omega) hmax
    refine ⟨⟨?_, fun i name h => hgood f i name h⟩, by rw [hsize]; omega⟩
    rw [hsize]
    simp only [occupied, attributes_store]
    rw [Finset.card_insert_of_not_mem ((lookup_eq_none_iff f w.keyID).1 habsent)]
    unfold occupied at hcount
    push_cast
    omega

theorem size_after_clear (key : String) (v : Int) (kv : List (String × String))
    (ids : List (Int × String)) (hkey : key ≠ "lxqt_wallet_size") (h1 : -2147483648 ≤ v)
    (h2 : v ≤ 2147483647) (h3 : v ≠ -1) :
    lxqt_secret_service_wallet_size
      { keyValues := clear key (store "lxqt_wallet_size" (snprintf_d v) kv),
        keyID := ids, faults := [] } = v := by
  simp only [lxqt_secret_service_wallet_size, _number_of_entries_in_the_wallet,
    _get_string_value, _get_string_value_0]
  rw [lookup_clear_ne (Ne.symm hkey), lookup_store_self]
  simp only [atoi_snprintf_d v h1 h2]
  rw [if_neg h3]

theorem slotInvariant_clear (key : String) (w : Wallet) (m : Int) (hacc : w.faults = [])
    (hinv : slotInvariant w) (hkey : reserved key = false)
    (hm : _get_integer_value_0 m w = some key) (hm0 : 0 ≤ m) (hmmax : m ≤ 2147483647) :
    ∃ w', (∀ fuel, m.toNat < fuel →
        lxqt_secret_service_clear_sync fuel key w = some (true, w')) ∧
      slotInvariant w' ∧ 0 ≤ lxqt_secret_service_wallet_size w' := by
  obtain ⟨hcount, hnames⟩ := hinv
  have hk1 : key ≠ "lxqt_wallet_size" := by
    intro e; simp [reserved, e] at hkey
  obtain ⟨m₀, h0, hle, hm₀, hlow⟩ := lowest_slot_holding key w m hm0 hm
  have hmem : m₀ ∈ (w.keyID.map Prod.fst).toFinset :=
    (lookup_isSome_iff m₀ w.keyID).1 ⟨key, hm₀⟩
  have hpos : 0 < occupied w := Finset.card_pos.2 ⟨m₀, hmem⟩
  have hr := get_string_value_range "lxqt_wallet_size" w
  have hj := size_of_positive_count w (by omega)
  have hw : wrap32 (_get_string_value "lxqt_wallet_size" w - 1)
      = _get_string_value "lxqt_wallet_size" w - 1 := wrap32_of_int (by omega) (by omega)
  have hsize : lxqt_secret_service_wallet_size
      { keyValues := clear key (store "lxqt_wallet_size"
          (snprintf_d (wrap32 (_get_string_value "lxqt_wallet_size" w - 1)))
          (store "lxqt_wallet_open" "lxqt_wallet_open" w.keyValues)),
        keyID := clear m₀ w.keyID, faults := [] }
      = lxqt_secret_service_wallet_size w - 1 := by
    rw [hw, size_after_clear key _ _ _ hk1 (by omega) (by omega) (by omega), hj]
  refine ⟨_, fun fuel hfuel => clear_sync_finds key w m₀ hacc hcount hm₀ hlow h0 (by omega)
    fuel (by omega), ⟨?_, ?_⟩, by rw [hsize]; omega⟩
  · rw [hsize, hcount]
    simp only [occupied, attributes_clear]
    rw [Finset.card_erase_of_mem hmem]
    unfold occupied at hpos
    omega
  · intro i name h
    simp only [_get_integer_value_0] at h
    by_cases hi : i = m₀
    · subst hi; rw [lookup_clear_self] at h; cases h
    · rw [lookup_clear_ne hi] at h
      exact hnames i name h

/-- C18 (amended): restrict keys to names that are not reserved and whose `atoi` value is
not -1, and let the backend accept every call.  If the count (an absent size entry read as
0) equals the number of occupied key-index slots and every occupied slot holds such a name,
then after a store of any such key (held in a slot or not, the size entry present or not,
whatever the store returns), provided the count is below `INT_MAX`, and after a clear of any
such key held in a slot `m` (a non-negative `int`), which returns TRUE, the count again
equals the number of occupied slots, every occupied slot again holds such a name, and the
count is non-negative. -/
theorem count_matches_occupied_step (w : Wallet) (hacc : w.faults = [])
    (hinv : slotInvariant w) :
    (∀ key value : String, reserved key = false → atoi key ≠ -1 →
      lxqt_secret_service_wallet_size w < INT_MAX →
      slotInvariant (lxqt_secret_service_password_store_sync key value w).2 ∧
      0 ≤ lxqt_secret_service_wallet_size
        (lxqt_secret_service_password_store_sync key value w).2) ∧
    (∀ (key : String) (m : Int), reserved key = false → atoi key ≠ -1 →
      _get_integer_value_0 m w = some key → 0 ≤ m → m ≤ INT_MAX →
      ∃ w', (∀ fuel, m.toNat < fuel →
          lxqt_secret_service_clear_sync fuel key w = some (true, w')) ∧
        slotInvariant w' ∧ 0 ≤ lxqt_secret_service_wallet_size w') :=
  ⟨fun key value hkey hatoi hmax =>
      slotInvariant_store key value w hacc hinv hkey hatoi (by simpa [INT_MAX] using hmax),
    fun key m hkey _ hm hm0 hmmax =>
      slotInvariant_clear key w m hacc hinv hkey hm hm0 (by simpa [INT_MAX] using hmmax)⟩

/-- C18, at the never-written wallet (the first insert of "a") and at the wallet with "a" in
slot 0 and count 1 (the store of the new key "b", the store of "a" again, and the clear of
"a"). -/
theorem count_matches_occupied_step_witness :
    (slotInvariant (lxqt_secret_service_password_store_sync "a" "x" emptyWallet).2 ∧
      0 ≤ lxqt_secret_service_wallet_size
        (lxqt_secret_service_password_store_sync "a" "x" emptyWallet).2) ∧
    (slotInvariant (lxqt_secret_service_password_store_sync "b" "y"
        { keyValues := [("a", "x"), ("lxqt_wallet_size", "1")], keyID := [(0, "a")],
          faults := [] }).2 ∧
      0 ≤ lxqt_secret_service_wallet_size
        (lxqt_secret_service_password_store_sync "b" "y"
          { keyValues := [("a", "x"), ("lxqt_wallet_size", "1")], keyID := [(0, "a")],
            faults := [] }).2) ∧
    (slotInvariant (lxqt_secret_service_password_store_sync "a" "z"
        { keyValues := [("a", "x"), ("lxqt_wallet_size", "1")], keyID := [(0, "a")],
          faults := [] }).2 ∧
      0 ≤ lxqt_secret_service_wallet_size
        (lxqt_secret_service_password_store_sync "a" "z"
          { keyValues := [("a", "x"), ("lxqt_wallet_size", "1")], keyID := [(0, "a")],
            faults := [] }).2) ∧
    ∃ w', (∀ fuel, (0 : Int).toNat < fuel →
        lxqt_secret_service_clear_sync fuel "a"
          { keyValues := [("a", "x"), ("lxqt_wallet_size", "1")], keyID := [(0, "a")],
            faults := [] } = some (true, w')) ∧
      slotInvariant w' ∧ 0 ≤ lxqt_secret_service_wallet_size w' :=
  have hinv : slotInvariant
      { keyValues := [("a", "x"), ("lxqt_wallet_size", "1")], keyID := [(0, "a")],
        faults := [] } :=
    ⟨by decide, by
      intro i name h
      simp only [_get_integer_value_0, lookup] at h
      split at h
      · cases h; exact ⟨by decide, by decide⟩
      · cases h⟩
  have hempty : slotInvariant emptyWallet :=
    ⟨by decide, by
      intro i name h
      simp [_get_integer_value_0, emptyWallet, lookup] at h⟩
  ⟨(count_matches_occupied_step emptyWallet rfl hempty).1 "a" "x"
      (by decide) (by decide) (by decide),
    (count_matches_occupied_step _ rfl hinv).1 "b" "y" (by decide) (by decide) (by decide),
    (count_matches_occupied_step _ rfl hinv).1 "a" "z" (by decide) (by decide) (by decide),
    (count_matches_occupied_step _ rfl hinv).2 "a" 0 (by decide) (by decide) (by decide)
      (by decide) (by decide)⟩

theorem store_at_int_max (key value : String) (w : Wallet) (hacc : w.faults = [])
    (hj : _get_string_value "lxqt_wallet_size" w = 2147483647) :
    lxqt_secret_service_password_store_sync key value w =
      (false, { keyValues := store "lxqt_wallet_size" "-2147483648"
                  (store "lxqt_wallet_open" "lxqt_wallet_open" w.keyValues),
                keyID := w.keyID, faults := [] }) := by
  have hw : wrap32 (2147483647 + 1) = -2147483648 := by decide
  have hs : snprintf_d (-2147483648) = "-2147483648" := by decide
  have hn : ¬ ((2147483647 : Int) = -1) := by decide
  have ht : (-2147483648 : Int).toNat = 0 := by decide
  simp only [lxqt_secret_service_password_store_sync, gate_accepted w hacc,
    get_size_after_gate, hj, hn, hw, hs, ht, set_string_accepted, Bool.not_true,
    Bool.false_eq_true, if_false, store_scan]

theorem store_at_int_max_effect (key value : String) (w : Wallet) (hacc : w.faults = [])
    (hj : _get_string_value "lxqt_wallet_size" w = 2147483647) :
    lxqt_secret_service_wallet_size
      (lxqt_secret_service_password_store_sync key value w).2 = -2147483648 ∧
    occupied (lxqt_secret_service_password_store_sync key value w).2 = occupied w := by
  rw [store_at_int_max key value w hacc hj]
  have e : atoi "-2147483648" = -2147483648 := by decide
  constructor
  · simp only [lxqt_secret_service_wallet_size, _number_of_entries_in_the_wallet,
      _get_string_value, _get_string_value_0, lookup_store_self, e]
    decide
  · rfl

theorem occupied_range (n : Nat) (kv : List (String × String)) (fl : List Bool) :
    occupied { keyValues := kv,
               keyID := (List.range n).map (fun (k : Nat) => (Int.ofNat k, "a")),
               faults := fl } = n := by
  have e : List.map Prod.fst ((List.range n).map (fun (k : Nat) => (Int.ofNat k, "a")))
      = (List.range n).map (fun (k : Nat) => Int.ofNat k) := by
    rw [List.map_map]; rfl
  unfold occupied
  dsimp only
  rw [e, List.toFinset_card_of_nodup, List.length_map, List.length_range]
  exact List.Nodup.map (fun a b h => Int.ofNat.inj h) (List.nodup_range n)

theorem occupied_crowdedWallet : occupied crowdedWallet = 2147483647 :=
  occupied_range 2147483647 _ _

theorem names_crowdedWallet (i : Int) (name : String) :
    ∀ l : List Nat, lookup i (l.map (fun (n : Nat) => (Int.ofNat n, "a"))) = some name →
      name = "a" := by
  intro l
  induction l with
  | nil => intro h; simp [lookup] at h
  | cons n t ih =>
    intro h
    simp only [List.map_cons, lookup] at h
    split at h
    · exact (Option.some.inj h).symm
    · exact ih h

/-- C18 as stated fails when the count is `INT_MAX`: in the wallet whose slots
`0 .. INT_MAX - 1` all hold "a", with count `INT_MAX`, the count equals the number of
occupied slots and every slot holds a permitted name; storing "b" overflows `j + 1`, so the
stored count is -2147483648 afterwards while `INT_MAX` slots are occupied. -/
theorem count_overflows_at_int_max :
    slotInvariant crowdedWallet ∧ crowdedWallet.faults = [] ∧
    reserved "b" = false ∧ atoi "b" ≠ -1 ∧
    lxqt_secret_service_wallet_size
      (lxqt_secret_service_password_store_sync "b" "y" crowdedWallet).2 = -2147483648 ∧
    occupied (lxqt_secret_service_password_store_sync "b" "y" crowdedWallet).2
      = 2147483647 := by
  have hj : _get_string_value "lxqt_wallet_size" crowdedWallet = 2147483647 := by
    have e : _get_string_value "lxqt_wallet_size" crowdedWallet = atoi "2147483647" := by
      simp [_get_string_value, _get_string_value_0, crowdedWallet, lookup]
    rw [e]; decide
  have hsize : lxqt_secret_service_wallet_size crowdedWallet = 2147483647 := by
    simp only [lxqt_secret_service_wallet_size, _number_of_entries_in_the_wallet, hj]
    decide
  have h1 : lxqt_secret_service_wallet_size crowdedWallet = (occupied crowdedWallet : Int) := by
    rw [hsize, occupied_crowdedWallet]; norm_num
  have h2 : ∀ i name, _get_integer_value_0 i crowdedWallet = some name →
      reserved name = false ∧ atoi name ≠ -1 := by
    intro i name h
    simp only [_get_integer_value_0, crowdedWallet] at h
    have := names_crowdedWallet i name _ h
    subst this
    exact ⟨by decide, by decide⟩
  have h34 := store_at_int_max_effect "b" "y" crowdedWallet rfl hj
  have h3 := h34.1
  have h4 := h34.2.trans occupied_crowdedWallet
  exact ⟨⟨h1, h2⟩, rfl, by decide, by decide, h3, h4⟩

/-! ## C21: storing the key "lxqt_wallet_size" -/

theorem store_sync_true_general (key value : String) (w : Wallet)
    (h : (lxqt_secret_service_password_store_sync key value w).1 = true) :
    _get_string_value "lxqt_wallet_size" w ≠ -1 ∧
    lookup key (lxqt_secret_service_password_store_sync key value w).2.keyValues
      = some value := by
  have hpair : lxqt_secret_service_password_store_sync key value w
      = (true, (lxqt_secret_service_password_store_sync key value w).2) := by
    rw [← h]
  generalize (lxqt_secret_service_password_store_sync key value w).2 = w' at hpair ⊢
  unfold lxqt_secret_service_password_store_sync at hpair
  simp only at hpair
  by_cases hg : (lxqt_secret_service_wallet_is_open w).1 = true
  · have hsize : _get_string_value "lxqt_wallet_size" (lxqt_secret_service_wallet_is_open w).2
        = _get_string_value "lxqt_wallet_size" w := by
      rw [gate_passed w hg]
      simp only [_get_string_value, _get_string_value_0]
      rw [lookup_store_ne size_ne_open]
    simp only [hg, Bool.not_true, Bool.false_eq_true, if_false, hsize] at hpair
    by_cases hj : _get_string_value "lxqt_wallet_size" w = -1
    · simp [hj] at hpair
    · rw [if_neg hj] at hpair
      exact ⟨hj, store_scan_value key value _ _ _ _ hpair⟩
  · simp [hg] at hpair

/-- C21: whatever the wallet state and whatever the backend refuses, when
`lxqt_secret_service_password_store_sync "lxqt_wallet_size" v` returns TRUE (which takes a
size entry that is present), the count entry holds `v` afterwards, so that
`lxqt_secret_service_wallet_size` returns the `atoi` value of `v`, or 0 when that value is
-1: the count written before the slot claim (the previous count plus one) is overwritten by
the value write. -/
theorem store_of_size_key_overwrites_count (v : String) (w : Wallet)
    (h : (lxqt_secret_service_password_store_sync "lxqt_wallet_size" v w).1 = true) :
    lxqt_secret_service_get_value "lxqt_wallet_size" w ≠ none ∧
    lxqt_secret_service_get_value "lxqt_wallet_size"
      (lxqt_secret_service_password_store_sync "lxqt_wallet_size" v w).2 = some v ∧
    lxqt_secret_service_wallet_size
      (lxqt_secret_service_password_store_sync "lxqt_wallet_size" v w).2
      = (if atoi v = -1 then 0 else atoi v) := by
  obtain ⟨hj, hv⟩ := store_sync_true_general "lxqt_wallet_size" v w h
  refine ⟨?_, hv, ?_⟩
  · intro hnone
    apply hj
    simp only [lxqt_secret_service_get_value] at hnone
    simp [_get_string_value, hnone]
  · simp only [lxqt_secret_service_wallet_size, _number_of_entries_in_the_wallet,
      _get_string_value, _get_string_value_0, hv]

/-- C21, at the wallet with "a" in slot 0 and count 1: storing "lxqt_wallet_size" with the
value "7" leaves the count 7 (not 2), and with the value "-1" the count 0. -/
theorem store_of_size_key_overwrites_count_witness :
    lxqt_secret_service_wallet_size
        (lxqt_secret_service_password_store_sync "lxqt_wallet_size" "7"
          { keyValues := [("a", "x"), ("lxqt_wallet_size", "1")], keyID := [(0, "a")],
            faults := [] }).2 = 7 ∧
    lxqt_secret_service_wallet_size
        (lxqt_secret_service_password_store_sync "lxqt_wallet_size" "-1"
          { keyValues := [("a", "x"), ("lxqt_wallet_size", "1")], keyID := [(0, "a")],
            faults := [] }).2 = 0 :=
  ⟨(store_of_size_key_overwrites_count "7"
      { keyValues := [("a", "x"), ("lxqt_wallet_size", "1")], keyID := [(0, "a")],
        faults := [] } (by decide)).2.2.trans (by decide),
    (store_of_size_key_overwrites_count "-1"
      { keyValues := [("a", "x"), ("lxqt_wallet_size", "1")], keyID := [(0, "a")],
        faults := [] } (by decide)).2.2.trans (by decide)⟩

end LxqtWallet
